import Mathlib

/-!
Verification of the task selection and lifecycle engine of the
`sub_TaskManager` MCP server (`src/index.ts`).

The TypeScript `TaskManagerServer` class is shallowly embedded as pure
Lean functions over an explicit `Store` value.  JavaScript objects are
modelled as structures, `undefined`-able fields as `Option`, JS `Map`
lookups (`new Map(...).get`, last binding wins) as `mapGet`, and
`Array.prototype.find` as `List.find?`.  In-place mutation of a task
object found by id is modelled by rewriting every task carrying that id
(`updateTaskById`); the two coincide on stores whose task ids are
unique, which is how every reachable store is shaped.  `loadTasks` /
`saveTasks` (flat-file persistence round-trips) are identity at this
level and are not modelled.
-/

namespace TaskMgr

/-- Task status, `src/index.ts` line 24. -/
inductive Status
  | pending
  | active
  | done
  | failed
deriving DecidableEq, Repr

/-- Task priority, `src/index.ts` line 25. -/
inductive Priority
  | high
  | medium
  | low
deriving DecidableEq, Repr

/-- The `Task` interface (`src/index.ts` lines 20-31).  Optional fields of
the interface become `Option`; `completedDetails` is non-optional there. -/
structure Task where
  id : String
  title : String
  description : String
  status : Status
  priority : Priority
  dependsOn : Option (List String)
  parentId : Option String
  subtaskIds : Option (List String)
  failureReason : Option String
  completedDetails : String
deriving DecidableEq, Repr

/-- The `RequestEntry` interface (`src/index.ts` lines 33-39). -/
structure RequestEntry where
  requestId : String
  originalRequest : String
  splitDetails : String
  tasks : List Task
  completed : Bool
deriving DecidableEq, Repr

/-- The in-memory server state: `this.data.requests` plus the two id
counters `requestCounter` / `taskCounter` (`src/index.ts` lines 225-227). -/
structure Store where
  requests : List RequestEntry
  lastRequestId : Nat
  lastTaskId : Nat
deriving DecidableEq, Repr

/-- Argument shape of a task description passed to `request_planning` /
`add_tasks_to_request` (`src/index.ts` lines 53-60). -/
structure TaskSpec where
  title : String
  description : String
  priority : Option Priority
  dependsOn : Option (List String)
deriving DecidableEq, Repr

/-- `status === "done" || status === "failed"`. -/
def statusIsTerminal (s : Status) : Bool :=
  s == .done || s == .failed

/-- JS `v || dflt` on an optional string: `undefined` and the empty string
are both falsy. -/
def strOr (v : Option String) (dflt : String) : String :=
  if v.getD "" == "" then dflt else v.getD ""

/-- `new Map(req.tasks.map(t => [t.id, t])).get id`: with duplicate keys a
JS `Map` keeps the last binding, hence the search over the reversed list. -/
def mapGet (tasks : List Task) (id : String) : Option Task :=
  tasks.reverse.find? (fun t => t.id == id)

/-- `req.tasks.find(t => t.id === id)` (first match). -/
def findTask (tasks : List Task) (id : String) : Option Task :=
  tasks.find? (fun t => t.id == id)

/-- `this.data.requests.find(r => r.requestId === rid)`. -/
def findReq (s : Store) (rid : String) : Option RequestEntry :=
  s.requests.find? (fun r => r.requestId == rid)

/-- Write back a mutation performed through a task object looked up by id. -/
def updateTaskById (tasks : List Task) (id : String) (f : Task → Task) : List Task :=
  tasks.map (fun t => if t.id == id then f t else t)

/-- Write back a mutation performed through a request object looked up by id. -/
def replaceReq (s : Store) (rid : String) (newReq : RequestEntry) : Store :=
  { s with requests := s.requests.map (fun r => if r.requestId == rid then newReq else r) }

/-! ### getNextTask (`src/index.ts` lines 431-546) -/

/-- `areDependenciesMet` (lines 440-448): every id in `dependsOn` must
resolve in the task map to a task whose status is `done`; a dangling id
counts as unmet. -/
def areDependenciesMet (tasks : List Task) (t : Task) : Bool :=
  (t.dependsOn.getD []).all (fun depId =>
    match mapGet tasks depId with
    | some depTask => depTask.status == .done
    | none => false)

/-- First candidate pass (lines 453-461): pending subtasks, with met
dependencies, of parents that are currently `active` and have subtasks. -/
def passACandidates (tasks : List Task) : List Task :=
  (tasks.filter (fun t => t.status == .active && !(t.subtaskIds.getD []).isEmpty)).flatMap
    (fun parent => (parent.subtaskIds.getD []).filterMap (fun subtaskId =>
      match mapGet tasks subtaskId with
      | some subtask =>
        if subtask.status == .pending && areDependenciesMet tasks subtask then some subtask
        else none
      | none => none))

/-- Second candidate pass (lines 464-473): every `pending` or `active` task
with met dependencies, excluding tasks whose parent is `active`. -/
def passBCandidates (tasks : List Task) : List Task :=
  tasks.filter (fun task =>
    let parent := match task.parentId with
      | some pid => mapGet tasks pid
      | none => none
    match parent with
    | some p =>
      if p.status == .active then false
      else (task.status == .pending || task.status == .active) && areDependenciesMet tasks task
    | none => (task.status == .pending || task.status == .active) && areDependenciesMet tasks task)

/-- `potentialNextTasks` after both passes (pass B runs only when pass A
found nothing). -/
def nextCandidates (tasks : List Task) : List Task :=
  let passA := passACandidates tasks
  if passA.isEmpty then passBCandidates tasks else passA

/-- `priorityOrder = \x7b high: 0, medium: 1, low: 2 \x7d` (line 496). -/
def priorityRank : Priority → Nat
  | .high => 0
  | .medium => 1
  | .low => 2

/-- `id.replace("task-", "")`: remove the first occurrence of `task-`. -/
def removeMarker : List Char → List Char
  | [] => []
  | c :: rest =>
    match c :: rest with
    | 't' :: 'a' :: 's' :: 'k' :: '-' :: tail => tail
    | _ => c :: removeMarker rest

/-- `parseInt(id.replace("task-", ""), 10)` for the ids this system mints
(`task-<n>`): the numeric value of the leading digits after stripping the
first `task-`.  (For malformed ids JS yields `NaN`, on which the sort
comparator is not a consistent order; those collapse to `0` here.) -/
def parseTaskIdNum (id : String) : Nat :=
  ((removeMarker id.data).takeWhile Char.isDigit).foldl
    (fun acc c => acc * 10 + (c.toNat - 48)) 0

/-- Whether the task has a parent that is currently `active`
(`a.parentId && taskMap.get(a.parentId)?.status === "active"`). -/
def parentActive (tasks : List Task) (t : Task) : Bool :=
  match t.parentId with
  | some pid =>
    match mapGet tasks pid with
    | some p => p.status == .active
    | none => false
  | none => false

/-- The three-part sort key of the comparator at lines 495-509: tasks whose
parent is active first, then priority rank, then numeric task id. -/
def sortKey (tasks : List Task) (t : Task) : Nat × Nat × Nat :=
  (if parentActive tasks t then 0 else 1, priorityRank t.priority, parseTaskIdNum t.id)

/-- Lexicographic comparison of sort keys; `taskLE tasks a b` holds exactly
when the source comparator returns a non-positive number on `(a, b)`. -/
def taskLE (tasks : List Task) (a b : Task) : Bool :=
  let ka := sortKey tasks a
  let kb := sortKey tasks b
  ka.1 < kb.1 ||
    (ka.1 == kb.1 && (ka.2.1 < kb.2.1 || (ka.2.1 == kb.2.1 && ka.2.2 ≤ kb.2.2)))

/-- Insert into a sorted list (auxiliary for `sortBy`). -/
def insertSorted (le : Task → Task → Bool) (x : Task) : List Task → List Task
  | [] => [x]
  | y :: ys => if le x y then x :: y :: ys else y :: insertSorted le x ys

/-- Total sort modelling `potentialNextTasks.sort(comparator)`; any sorted
permutation determines the same head-minimality facts, so insertion sort
stands in for the engine-specific JS sort. -/
def sortBy (le : Task → Task → Bool) : List Task → List Task
  | [] => []
  | x :: xs => insertSorted le x (sortBy le xs)

/-- `potentialNextTasks[0]` after sorting. -/
def selectedCandidate (tasks : List Task) : Option Task :=
  (sortBy (taskLE tasks) (nextCandidates tasks)).head?

/-- The task attributes included in a `next_task` response
(lines 535-543); note the response omits `status`. -/
structure TaskSnapshot where
  id : String
  title : String
  description : String
  priority : Priority
  dependsOn : Option (List String)
  parentId : Option String
  subtaskIds : Option (List String)
deriving DecidableEq, Repr

/-- Project the response snapshot out of a task. -/
def snapshotOf (t : Task) : TaskSnapshot :=
  { id := t.id, title := t.title, description := t.description, priority := t.priority,
    dependsOn := t.dependsOn, parentId := t.parentId, subtaskIds := t.subtaskIds }

/-- The distinguishable outcomes of `getNextTask`. -/
inductive GetNextTaskResult
  | reqNotFound
  | alreadyCompleted
  | allTasksTerminalRequestCompleted
  | noActionableTask
  | next (t : TaskSnapshot)
deriving DecidableEq, Repr

/-- Status mutation performed when the chosen head candidate is still
`pending` (lines 512-530): if its parent resolves and is `pending`, the
parent is forced `active` first, then the candidate itself. -/
def activateSelected (tasks : List Task) (nextTask : Task) : List Task :=
  let tasks1 :=
    match nextTask.parentId with
    | some pid =>
      match mapGet tasks pid with
      | some parent =>
        if parent.status == .pending then
          updateTaskById tasks pid (fun p => { p with status := .active })
        else tasks
      | none => tasks
    | none => tasks
  updateTaskById tasks1 nextTask.id (fun t => { t with status := .active })

/-- `getNextTask` (lines 431-546). -/
def getNextTask (s : Store) (requestId : String) : Store × GetNextTaskResult :=
  match findReq s requestId with
  | none => (s, .reqNotFound)
  | some req =>
    if req.completed then (s, .alreadyCompleted)
    else
      let cands := nextCandidates req.tasks
      if cands.isEmpty then
        if req.tasks.all (fun t => statusIsTerminal t.status) then
          (replaceReq s requestId { req with completed := true },
           .allTasksTerminalRequestCompleted)
        else (s, .noActionableTask)
      else
        match selectedCandidate req.tasks with
        | none => (s, .noActionableTask)
        | some nextTask =>
          if nextTask.status == .pending then
            (replaceReq s requestId { req with tasks := activateSelected req.tasks nextTask },
             .next (snapshotOf nextTask))
          else (s, .next (snapshotOf nextTask))

/-! ### markTaskDone / markTaskFailed (`src/index.ts` lines 548-670) -/

/-- The distinguishable outcomes of the two mark operations. -/
inductive MarkResult
  | reqNotFound
  | taskNotFound
  | alreadyDone
  | alreadyFailed
  | marked
deriving DecidableEq, Repr

/-- The `sub && (sub.status === "done" || sub.status === "failed")` check
inside the parent's `subtaskIds?.every(...)` callback. -/
def resolvesTerminal (tasks : List Task) (subId : String) : Bool :=
  match findTask tasks subId with
  | some sub => statusIsTerminal sub.status
  | none => false

/-- The mutation forcing an auto-completed parent to `done`; note it does
not touch `failureReason`. -/
def autoCompleteUpdate (autoDetails : String) (p : Task) : Task :=
  { p with status := .done, completedDetails := autoDetails }

/-- Parent auto-completion (lines 568-582 and 629-645): after a task moved
into a terminal status, a non-terminal parent whose `subtaskIds` now all
resolve to terminal tasks is forced to `done` with the given details.
`parentTask.subtaskIds?.every(...)` is falsy when `subtaskIds` is absent. -/
def propagateToParent (tasks : List Task) (parentId : Option String)
    (autoDetails : String) : List Task :=
  match parentId with
  | none => tasks
  | some pid =>
    match findTask tasks pid with
    | none => tasks
    | some parentTask =>
      if parentTask.status == .pending || parentTask.status == .active then
        let allSubtasksTerminal :=
          match parentTask.subtaskIds with
          | none => false
          | some subIds => subIds.all (resolvesTerminal tasks)
        if allSubtasksTerminal then
          updateTaskById tasks pid (autoCompleteUpdate autoDetails)
        else tasks
      else tasks

/-- The mutation at lines 561-563: set `done`, set `completedDetails`
(empty-string argument falls back to the default, JS truthiness), clear
`failureReason`. -/
def markDoneUpdate (completedDetails : Option String) (t : Task) : Task :=
  { t with status := .done,
           completedDetails := strOr completedDetails "Completed successfully",
           failureReason := none }

/-- The mutation at lines 622-624: set `failed`, set `failureReason`
(empty-string argument falls back to the default), clear
`completedDetails`. -/
def markFailedUpdate (reason : Option String) (t : Task) : Task :=
  { t with status := .failed,
           failureReason := some (strOr reason "No reason provided"),
           completedDetails := "" }

/-- Request completion check shared by both mark operations (lines 584-587
and 647-651). -/
def completeIfAllTerminal (req : RequestEntry) (tasks : List Task) : RequestEntry :=
  let completed :=
    if tasks.all (fun t => statusIsTerminal t.status) && !req.completed then true
    else req.completed
  { req with tasks := tasks, completed := completed }

/-- `markTaskDone` (lines 548-607). -/
def markTaskDone (s : Store) (requestId taskId : String)
    (completedDetails : Option String) : Store × MarkResult :=
  match findReq s requestId with
  | none => (s, .reqNotFound)
  | some req =>
    match findTask req.tasks taskId with
    | none => (s, .taskNotFound)
    | some task =>
      if task.status == .done then (s, .alreadyDone)
      else if task.status == .failed then (s, .alreadyFailed)
      else
        let tasks1 := updateTaskById req.tasks taskId (markDoneUpdate completedDetails)
        let tasks2 := propagateToParent tasks1 task.parentId
          "Automatically completed as all subtasks are terminal."
        (replaceReq s requestId (completeIfAllTerminal req tasks2), .marked)

/-- `markTaskFailed` (lines 609-670). -/
def markTaskFailed (s : Store) (requestId taskId : String)
    (reason : Option String) : Store × MarkResult :=
  match findReq s requestId with
  | none => (s, .reqNotFound)
  | some req =>
    match findTask req.tasks taskId with
    | none => (s, .taskNotFound)
    | some task =>
      if task.status == .failed then (s, .alreadyFailed)
      else if task.status == .done then (s, .alreadyDone)
      else
        let tasks1 := updateTaskById req.tasks taskId (markFailedUpdate reason)
        let tasks2 := propagateToParent tasks1 task.parentId
          "Automatically completed as all subtasks are terminal (some may have failed)."
        (replaceReq s requestId (completeIfAllTerminal req tasks2), .marked)

/-! ### Dependency operations (`src/index.ts` lines 672-767) -/

/-- The distinguishable outcomes of `addDependency` / `removeDependency`. -/
inductive DepResult
  | reqNotFound
  | taskNotFound
  | depTaskNotFound
  | selfDependency
  | noChange
  | changed
deriving DecidableEq, Repr

/-- `addDependency` (lines 672-691): rejects unknown ids and
`taskId === dependsOnTaskId`; a duplicate edge is a reported no-op. -/
def addDependency (s : Store) (requestId taskId dependsOnTaskId : String) :
    Store × DepResult :=
  match findReq s requestId with
  | none => (s, .reqNotFound)
  | some req =>
    match findTask req.tasks taskId with
    | none => (s, .taskNotFound)
    | some task =>
      match findTask req.tasks dependsOnTaskId with
      | none => (s, .depTaskNotFound)
      | some _ =>
        if taskId == dependsOnTaskId then (s, .selfDependency)
        else if (task.dependsOn.getD []).contains dependsOnTaskId then (s, .noChange)
        else
          let tasks1 := updateTaskById req.tasks taskId (fun t =>
            { t with dependsOn := some ((t.dependsOn.getD []) ++ [dependsOnTaskId]) })
          (replaceReq s requestId { req with tasks := tasks1 }, .changed)

/-- `removeDependency` (lines 693-709); an emptied `dependsOn` array is
deleted from the object. -/
def removeDependency (s : Store) (requestId taskId dependsOnTaskId : String) :
    Store × DepResult :=
  match findReq s requestId with
  | none => (s, .reqNotFound)
  | some req =>
    match findTask req.tasks taskId with
    | none => (s, .taskNotFound)
    | some task =>
      if !(task.dependsOn.getD []).contains dependsOnTaskId then (s, .noChange)
      else
        let tasks1 := updateTaskById req.tasks taskId (fun t =>
          let deps := (t.dependsOn.getD []).filter (fun i => i != dependsOnTaskId)
          { t with dependsOn := if deps.isEmpty then none else some deps })
        (replaceReq s requestId { req with tasks := tasks1 }, .changed)

/-! ### validateDependencies (`src/index.ts` lines 711-767) -/

/-- The dangling-reference message pushed at line 723. -/
def danglingMsg (taskId depId : String) : String :=
  "Task " ++ taskId ++ " depends on non-existent task " ++ depId ++ "."

/-- The circular-dependency message pushed at line 747. -/
def circularMsg (taskId depId : String) : String :=
  "Circular dependency detected: " ++ taskId ++ " -> ... -> " ++ depId ++ " -> " ++ taskId

/-- First validation phase (lines 719-727): one issue per `dependsOn` id
that is not a key of the request's task map. -/
def danglingIssues (tasks : List Task) : List String :=
  tasks.flatMap (fun task =>
    (task.dependsOn.getD []).filterMap (fun depId =>
      if (mapGet tasks depId).isSome then none
      else some (danglingMsg task.id depId)))

/-- The mutable state of the cycle-detection phase: `visited`,
`recursionStack`, the shared `issues` array and the `cycleFound` flag. -/
structure CycleState where
  visited : List String
  stack : List String
  issues : List String
  cycleFound : Bool
deriving DecidableEq, Repr

/-- The `for (const depId of task.dependsOn)` loop of `detectCycle`
(lines 740-752): skip dangling ids, recurse (through `recurse`) into
unvisited ones, and report (then stop at) the first edge into a node still
on the recursion stack. -/
def cycleDeps (tasks : List Task) (recurse : String → CycleState → CycleState)
    (taskId : String) : List String → CycleState → CycleState
  | [], st => st
  | depId :: rest, st =>
    if !(mapGet tasks depId).isSome then cycleDeps tasks recurse taskId rest st
    else if !st.visited.contains depId then
      let st2 := recurse depId st
      if st2.cycleFound then st2 else cycleDeps tasks recurse taskId rest st2
    else if st.stack.contains depId then
      { st with issues := st.issues ++ [circularMsg taskId depId], cycleFound := true }
    else cycleDeps tasks recurse taskId rest st

/-- `detectCycle` (lines 733-754).  The JS recursion depth is bounded by
the number of tasks, since every recursive call targets an unvisited node;
`fuel` makes that bound explicit and `runCycleDetection` supplies one that
can never be exhausted. -/
def detectCycle (tasks : List Task) : Nat → String → CycleState → CycleState
  | 0, _, st => st
  | Nat.succ fuel, taskId, st =>
    if st.cycleFound then st
    else
      let st1 := { st with visited := taskId :: st.visited, stack := taskId :: st.stack }
      let deps :=
        match mapGet tasks taskId with
        | some task => task.dependsOn.getD []
        | none => []
      let st2 := cycleDeps tasks (detectCycle tasks fuel) taskId deps st1
      if st2.cycleFound then st2
      else { st2 with stack := st2.stack.erase taskId }

/-- One iteration of the top-level loop at lines 756-760: start a DFS at
every still-unvisited task while no cycle has been found. -/
def cycleRunStep (tasks : List Task) (st : CycleState) (task : Task) : CycleState :=
  if !st.visited.contains task.id && !st.cycleFound then
    detectCycle tasks (tasks.length + 1) task.id st
  else st

/-- The top-level loop at lines 756-760, seeded with the dangling issues
already in the shared array. -/
def runCycleDetection (tasks : List Task) (seedIssues : List String) : CycleState :=
  tasks.foldl (cycleRunStep tasks)
    { visited := [], stack := [], issues := seedIssues, cycleFound := false }

/-- All issues accumulated by `validateDependencies` before deduplication. -/
def allIssues (tasks : List Task) : List String :=
  (runCycleDetection tasks (danglingIssues tasks)).issues

/-- `Array.from(new Set(issues))`: deduplicate keeping first occurrences. -/
def dedupIssues (issues : List String) : List String :=
  issues.foldl (fun acc x => if acc.contains x then acc else acc ++ [x]) []

/-- The result shape of `validateDependencies`. -/
structure ValidationResult where
  status : String
  issues : List String
deriving DecidableEq, Repr

/-- `validateDependencies` (lines 711-767). -/
def validateDependencies (s : Store) (requestId : String) : ValidationResult :=
  match findReq s requestId with
  | none => { status := "error", issues := ["Request not found"] }
  | some req =>
    let issues := allIssues req.tasks
    if !issues.isEmpty then
      { status := "validation_failed", issues := dedupIssues issues }
    else
      { status := "validation_passed", issues := [] }

/-! ### Cascading delete (`src/index.ts` lines 973-1021) -/

/-- The breadth-first worklist loop of `removeTaskAndDescendants`
(lines 976-993): `acc` is the growing `tasksToDelete` set, `queue` the
pending ids; children of a dequeued task are enqueued only when they exist
in the task map.  Terminates because every productive step moves a task id
into `acc`. -/
def collectTasksToDelete (tasks : List Task) (queue acc : List String) : List String :=
  match queue with
  | [] => acc
  | currentId :: rest =>
    if acc.contains currentId then collectTasksToDelete tasks rest acc
    else
      match heq : mapGet tasks currentId with
      | some task =>
        collectTasksToDelete tasks
          (rest ++ (task.subtaskIds.getD []).filter (fun subId => (mapGet tasks subId).isSome))
          (acc ++ [currentId])
      | none => collectTasksToDelete tasks rest (acc ++ [currentId])
termination_by
  (((tasks.map Task.id).dedup.filter (fun i => !acc.contains i)).length, queue.length)
decreasing_by
  · apply Prod.Lex.right
    simp
  · apply Prod.Lex.left
    rename_i hguard
    simp only [mapGet] at heq
    have hmem : currentId ∈ (tasks.map Task.id).dedup := by
      rw [List.mem_dedup, List.mem_map]
      refine ⟨task, List.mem_reverse.mp (List.mem_of_find?_eq_some heq), ?_⟩
      have := List.find?_some heq
      simpa using this
    have hmono : ∀ l : List String,
        (List.filter (fun i => !(acc ++ [currentId]).contains i) l).length ≤
          (List.filter (fun i => !acc.contains i) l).length := by
      intro l
      induction l with
      | nil => simp
      | cons a l ih =>
        simp only [List.filter_cons]
        by_cases hmacc : a ∈ acc
        · have h1 : (!(acc ++ [currentId]).contains a) = false := by simp [hmacc]
          have h2 : (!acc.contains a) = false := by simp [hmacc]
          rw [h1, h2]
          exact ih
        · have h2 : (!acc.contains a) = true := by simp [hmacc]
          rw [h2]
          by_cases hac : a = currentId
          · have h1 : (!(acc ++ [currentId]).contains a) = false := by simp [hac]
            rw [h1]
            exact Nat.le_succ_of_le ih
          · have h1 : (!(acc ++ [currentId]).contains a) = true := by simp [hmacc, hac]
            rw [h1]
            simpa using Nat.succ_le_succ ih
    have key : ∀ l : List String, currentId ∈ l →
        (List.filter (fun i => !(acc ++ [currentId]).contains i) l).length <
          (List.filter (fun i => !acc.contains i) l).length := by
      intro l hl
      induction l with
      | nil => simp at hl
      | cons a l ih =>
        rw [List.mem_cons] at hl
        simp only [List.filter_cons]
        by_cases hac : a = currentId
        · subst hac
          have h1 : (!(acc ++ [a]).contains a) = false := by simp
          have h2 : (!acc.contains a) = true := by simpa using hguard
          rw [h1, h2]
          exact Nat.lt_succ_of_le (hmono l)
        · have hl' : currentId ∈ l := by
            rcases hl with hl | hl
            · exact absurd hl.symm hac
            · exact hl
          by_cases hmacc : a ∈ acc
          · have h1 : (!(acc ++ [currentId]).contains a) = false := by simp [hmacc]
            have h2 : (!acc.contains a) = false := by simp [hmacc]
            rw [h1, h2]
            exact ih hl'
          · have h1 : (!(acc ++ [currentId]).contains a) = true := by simp [hmacc, hac]
            have h2 : (!acc.contains a) = true := by simp [hmacc]
            rw [h1, h2]
            simpa using Nat.succ_lt_succ (ih hl')
    exact key _ hmem
  · rename_i hguard
    simp only [mapGet] at heq
    have hnotin : currentId ∉ tasks.map Task.id := by
      rw [List.mem_map]
      rintro ⟨t, ht, hid⟩
      have := List.find?_eq_none.mp heq t (List.mem_reverse.mpr ht)
      simp [hid] at this
    have heqf : (List.filter (fun i => !(acc ++ [currentId]).contains i)
          (tasks.map Task.id).dedup) =
        (List.filter (fun i => !acc.contains i) (tasks.map Task.id).dedup) := by
      apply List.filter_congr
      intro x hx
      rw [List.mem_dedup] at hx
      have hxc : x ≠ currentId := fun h => hnotin (h ▸ hx)
      simp [hxc]
    rw [heqf]
    apply Prod.Lex.right
    simp

/-- One hierarchy step as traversed by the delete worklist: `b` is listed
in the `subtaskIds` of the task that id `a` resolves to, and `b` itself
resolves.  `Relation.ReflTransGen (childEdge tasks) root` is then "root
itself or a descendant of root reachable through subtaskIds". -/
def childEdge (tasks : List Task) (a b : String) : Prop :=
  ∃ t, mapGet tasks a = some t ∧ b ∈ t.subtaskIds.getD [] ∧ (mapGet tasks b).isSome = true

/-- The parent mutation at lines 999-1002: filter the removed id out of
`subtaskIds`, deleting the field when it becomes empty. -/
def unlinkUpdate (taskIdToRemove : String) (parent : Task) : Task :=
  match parent.subtaskIds with
  | some subs =>
    let subs2 := subs.filter (fun i => i != taskIdToRemove)
    { parent with subtaskIds := if subs2.isEmpty then none else some subs2 }
  | none => parent

/-- Lines 996-1003: remove the root from its former parent's
`subtaskIds`. -/
def unlinkFromParent (tasks : List Task) (taskIdToRemove : String) : List Task :=
  match mapGet tasks taskIdToRemove with
  | some taskToRemove =>
    match taskToRemove.parentId with
    | some pid => updateTaskById tasks pid (unlinkUpdate taskIdToRemove)
    | none => tasks
  | none => tasks

/-- Lines 1011-1014 of the per-survivor cleanup: strip `dependsOn` entries
into the removed set, deleting the field when it becomes empty. -/
def stripDeps (tasksToDelete : List String) (t : Task) : Task :=
  match t.dependsOn with
  | some deps =>
    let deps2 := deps.filter (fun depId => !tasksToDelete.contains depId)
    { t with dependsOn := if deps2.isEmpty then none else some deps2 }
  | none => t

/-- Lines 1016-1018 of the per-survivor cleanup: orphan the task when its
parent was removed. -/
def stripParent (tasksToDelete : List String) (t1 : Task) : Task :=
  match t1.parentId with
  | some pid => if tasksToDelete.contains pid then { t1 with parentId := none } else t1
  | none => t1

/-- The per-survivor cleanup at lines 1010-1019. -/
def cleanupTask (tasksToDelete : List String) (t : Task) : Task :=
  stripParent tasksToDelete (stripDeps tasksToDelete t)

/-- The task list produced by a successful `removeTaskAndDescendants`:
unlink the root, drop the removed set, clean the survivors. -/
def removedCleaned (req : RequestEntry) (rootId : String) : List Task :=
  ((unlinkFromParent req.tasks rootId).filter
    (fun t => !(collectTasksToDelete req.tasks [rootId] []).contains t.id)).map
    (cleanupTask (collectTasksToDelete req.tasks [rootId] []))

/-- `removeTaskAndDescendants` (lines 974-1021): compute the descendant
set, unlink the root from its former parent's `subtaskIds`, drop the whole
set from the task list, then strip surviving `dependsOn` and `parentId`
references into the removed set.  Returns whether any task was removed. -/
def removeTaskAndDescendants (req : RequestEntry) (taskIdToRemove : String) :
    RequestEntry × Bool :=
  if (mapGet req.tasks taskIdToRemove).isNone then (req, false)
  else
    let tasksToDelete := collectTasksToDelete req.tasks [taskIdToRemove] []
    let tasks1 := unlinkFromParent req.tasks taskIdToRemove
    let initialTaskCount := tasks1.length
    let tasks2 := tasks1.filter (fun t => !tasksToDelete.contains t.id)
    let tasks3 := tasks2.map (cleanupTask tasksToDelete)
    ({ req with tasks := tasks3 }, decide (tasks3.length < initialTaskCount))

/-- The distinguishable outcomes of `deleteTask` / `removeSubtask`. -/
inductive RemoveResult
  | reqNotFound
  | taskNotFound
  | parentNotFound
  | notDirectSubtask
  | removeFailed
  | removed
deriving DecidableEq, Repr

/-- `deleteTask` (lines 884-914): no status precondition; delegates to the
cascading delete. -/
def deleteTask (s : Store) (requestId taskId : String) : Store × RemoveResult :=
  match findReq s requestId with
  | none => (s, .reqNotFound)
  | some req =>
    match findTask req.tasks taskId with
    | none => (s, .taskNotFound)
    | some _ =>
      let res := removeTaskAndDescendants req taskId
      if res.2 then (replaceReq s requestId res.1, .removed)
      else (s, .removeFailed)

/-- `removeSubtask` (lines 1023-1058): optional validation that
`parentTaskId` is the current direct parent, then the same cascading
delete. -/
def removeSubtask (s : Store) (requestId subtaskId : String)
    (parentTaskId : Option String) : Store × RemoveResult :=
  match findReq s requestId with
  | none => (s, .reqNotFound)
  | some req =>
    if !req.tasks.any (fun t => t.id == subtaskId) then (s, .taskNotFound)
    else
      let parentCheck :=
        match parentTaskId with
        | none => RemoveResult.removed
        | some ptid =>
          match findTask req.tasks ptid with
          | none => RemoveResult.parentNotFound
          | some parentTask =>
            if !(parentTask.subtaskIds.getD []).contains subtaskId then
              RemoveResult.notDirectSubtask
            else RemoveResult.removed
      if parentCheck != RemoveResult.removed then (s, parentCheck)
      else
        let res := removeTaskAndDescendants req subtaskId
        if res.2 then (replaceReq s requestId res.1, .removed)
        else (s, .removeFailed)

/-! ### Task creation and editing (`src/index.ts` lines 382-429, 814-971) -/

/-- Build a top-level task from a `request_planning` /
`add_tasks_to_request` spec (lines 392-403 and 824-835): status `pending`,
default priority `medium`, `dependsOn` defaulted to `[]`, no hierarchy
links. -/
def newTaskFromSpec (id : String) (spec : TaskSpec) : Task :=
  { id := id, title := spec.title, description := spec.description, status := .pending,
    priority := spec.priority.getD .medium, dependsOn := some (spec.dependsOn.getD []),
    parentId := none, subtaskIds := none, failureReason := none, completedDetails := "" }

/-- The id minted for the `k`-th task ever created:
`` `task-${taskCounter}` ``. -/
def taskIdStr (k : Nat) : String :=
  "task-" ++ toString k

/-- Mint tasks for a list of specs, continuing the task counter. -/
def mintTasks (lastTaskId : Nat) (specs : List TaskSpec) : List Task :=
  specs.enum.map (fun p => newTaskFromSpec (taskIdStr (lastTaskId + p.1 + 1)) p.2)

/-- `requestPlanning` (lines 382-429): always creates the request with
`completed := false`. -/
def requestPlanning (s : Store) (originalRequest : String) (specs : List TaskSpec)
    (splitDetails : Option String) : Store × String :=
  let newRequestId := "req-" ++ toString (s.lastRequestId + 1)
  let newTasks := mintTasks s.lastTaskId specs
  let newReq : RequestEntry :=
    { requestId := newRequestId, originalRequest := originalRequest,
      splitDetails := strOr splitDetails originalRequest, tasks := newTasks,
      completed := false }
  ({ requests := s.requests ++ [newReq], lastRequestId := s.lastRequestId + 1,
     lastTaskId := s.lastTaskId + specs.length }, newRequestId)

/-- `addTasksToRequest` (lines 814-851): rejected on a completed request. -/
def addTasksToRequest (s : Store) (requestId : String) (specs : List TaskSpec) :
    Store × String :=
  match findReq s requestId with
  | none => (s, "error")
  | some req =>
    if req.completed then (s, "error")
    else
      let newTasks := mintTasks s.lastTaskId specs
      ({ (replaceReq s requestId { req with tasks := req.tasks ++ newTasks }) with
          lastTaskId := s.lastTaskId + specs.length }, "tasks_added")

/-- The per-task edit of `updateTask` (lines 869-874): JS truthiness means
an empty-string title or description is ignored. -/
def editTask (title description : Option String) (priority : Option Priority)
    (t : Task) : Task :=
  let t1 := if title.getD "" != "" then { t with title := title.getD "" } else t
  let t2 :=
    if description.getD "" != "" then { t1 with description := description.getD "" }
    else t1
  match priority with
  | some p => { t2 with priority := p }
  | none => t2

/-- `updateTask` (lines 853-882): rejected on terminal tasks. -/
def updateTaskOp (s : Store) (requestId taskId : String)
    (title description : Option String) (priority : Option Priority) : Store × String :=
  match findReq s requestId with
  | none => (s, "error")
  | some req =>
    match findTask req.tasks taskId with
    | none => (s, "error")
    | some task =>
      if task.status == .done || task.status == .failed then (s, "error")
      else
        let tasks1 := updateTaskById req.tasks taskId (editTask title description priority)
        (replaceReq s requestId { req with tasks := tasks1 }, "task_updated")

/-- The subtask record built at lines 937-947: status `pending`, the
parent's priority inherited when none is given (the `|| "medium"` fallback
in the source is dead, a parent priority is always set), linked to the
parent, an empty `subtaskIds` array of its own. -/
def newSubtaskRecord (lastTaskId : Nat)
    (parentTaskId subtaskTitle subtaskDescription : String)
    (priority : Option Priority) (dependsOn : Option (List String))
    (parentTask : Task) : Task :=
  { id := taskIdStr (lastTaskId + 1), title := subtaskTitle,
    description := subtaskDescription, status := .pending,
    priority := priority.getD parentTask.priority,
    dependsOn := some (dependsOn.getD []), parentId := some parentTaskId,
    subtaskIds := some [], failureReason := none, completedDetails := "" }

/-- `addSubtask` (lines 916-971): rejected on a completed request or a
terminal parent; the new subtask is linked into the parent's
`subtaskIds`. -/
def addSubtask (s : Store) (requestId parentTaskId subtaskTitle subtaskDescription : String)
    (priority : Option Priority) (dependsOn : Option (List String)) : Store × String :=
  match findReq s requestId with
  | none => (s, "error")
  | some req =>
    if req.completed then (s, "error")
    else
      match findTask req.tasks parentTaskId with
      | none => (s, "error")
      | some parentTask =>
        if parentTask.status == .done || parentTask.status == .failed then (s, "error")
        else
          let newSubtaskId := taskIdStr (s.lastTaskId + 1)
          let newSubtask : Task :=
            newSubtaskRecord s.lastTaskId parentTaskId subtaskTitle subtaskDescription
              priority dependsOn parentTask
          let tasks1 := updateTaskById (req.tasks ++ [newSubtask]) parentTaskId (fun p =>
            { p with subtaskIds := some ((p.subtaskIds.getD []) ++ [newSubtaskId]) })
          ({ (replaceReq s requestId { req with tasks := tasks1 }) with
              lastTaskId := s.lastTaskId + 1 }, "subtask_added")

/-! ### The operation algebra -/

/-- One engine invocation with its validated arguments; `openTaskDetails`
and `listRequests` are read-only and `validateDependencies` never mutates,
so their state transition is the identity. -/
inductive Op
  | requestPlanning (originalRequest : String) (specs : List TaskSpec)
      (splitDetails : Option String)
  | getNextTask (requestId : String)
  | markTaskDone (requestId taskId : String) (completedDetails : Option String)
  | markTaskFailed (requestId taskId : String) (reason : Option String)
  | openTaskDetails (taskId : String)
  | listRequests
  | addTasksToRequest (requestId : String) (specs : List TaskSpec)
  | updateTask (requestId taskId : String) (title description : Option String)
      (priority : Option Priority)
  | addDependency (requestId taskId dependsOnTaskId : String)
  | removeDependency (requestId taskId dependsOnTaskId : String)
  | validateDependencies (requestId : String)
  | deleteTask (requestId taskId : String)
  | addSubtask (requestId parentTaskId subtaskTitle subtaskDescription : String)
      (priority : Option Priority) (dependsOn : Option (List String))
  | removeSubtask (requestId subtaskId : String) (parentTaskId : Option String)

/-- The state transition of one operation. -/
def applyOp (s : Store) : Op → Store
  | .requestPlanning o specs sd => (requestPlanning s o specs sd).1
  | .getNextTask rid => (getNextTask s rid).1
  | .markTaskDone rid tid d => (markTaskDone s rid tid d).1
  | .markTaskFailed rid tid r => (markTaskFailed s rid tid r).1
  | .openTaskDetails _ => s
  | .listRequests => s
  | .addTasksToRequest rid specs => (addTasksToRequest s rid specs).1
  | .updateTask rid tid t d p => (updateTaskOp s rid tid t d p).1
  | .addDependency rid tid did => (addDependency s rid tid did).1
  | .removeDependency rid tid did => (removeDependency s rid tid did).1
  | .validateDependencies _ => s
  | .deleteTask rid tid => (deleteTask s rid tid).1
  | .addSubtask rid pid t d p deps => (addSubtask s rid pid t d p deps).1
  | .removeSubtask rid sid pid => (removeSubtask s rid sid pid).1

/-- The state of a fresh server over an empty storage file
(lines 264-268). -/
def initialStore : Store :=
  { requests := [], lastRequestId := 0, lastTaskId := 0 }

/-- Run a sequence of operations from a state. -/
def applyOps (s : Store) (ops : List Op) : Store :=
  ops.foldl applyOp s

/-! ### Invariants of reachable states -/

/-- Claim C9's terminal-field exclusivity, strengthened into an inductive
form: a task that is not `failed` carries no `failureReason`, and a task
that is not `done` carries empty `completedDetails`. -/
def TaskFieldsInv (t : Task) : Prop :=
  (t.status ≠ .failed → t.failureReason = none) ∧
  (t.status ≠ .done → t.completedDetails = "")

/-- `TaskFieldsInv` for every task of every request. -/
def FieldsInv (s : Store) : Prop :=
  ∀ r ∈ s.requests, ∀ t ∈ r.tasks, TaskFieldsInv t

/-- One direction of claim C5's biconditional: a request flagged completed
has only terminal tasks. -/
def ReqCompletedInv (r : RequestEntry) : Prop :=
  r.completed = true → ∀ t ∈ r.tasks, statusIsTerminal t.status = true

/-- `ReqCompletedInv` for every request. -/
def CompletedInv (s : Store) : Prop :=
  ∀ r ∈ s.requests, ReqCompletedInv r

/-- Well-formed ids inside one request: every task id was minted from the
counter (so is bounded by it) and ids are pairwise distinct. -/
def ReqWF (n : Nat) (r : RequestEntry) : Prop :=
  (∀ t ∈ r.tasks, ∃ k, 1 ≤ k ∧ k ≤ n ∧ t.id = taskIdStr k) ∧
  (r.tasks.map Task.id).Nodup

/-- `ReqWF` for every request, against the store's task counter. -/
def StoreWF (s : Store) : Prop :=
  ∀ r ∈ s.requests, ReqWF s.lastTaskId r

/-- The conjunction of invariants maintained by every operation. -/
def StoreInv (s : Store) : Prop :=
  StoreWF s ∧ FieldsInv s ∧ CompletedInv s

/-- Claim C6's invariant: no task lists its own id in `dependsOn`. -/
def NoSelfDep (s : Store) : Prop :=
  ∀ r ∈ s.requests, ∀ t ∈ r.tasks, t.id ∉ t.dependsOn.getD []

/-! ### Concrete example states (used to instantiate the theorems) -/

/-- A pending parent `task-1` (medium) with one high-priority pending
subtask `task-2`: selection picks the subtask and must force the parent
active. -/
def exampleStore7 : Store :=
  (addSubtask (requestPlanning initialStore "r"
      [{ title := "P", description := "", priority := none, dependsOn := none }] none).1
    "req-1" "task-1" "C" "" (some .high) none).1

/-- The request entry inside `exampleStore7`. -/
def exampleReq7 : RequestEntry :=
  { requestId := "req-1", originalRequest := "r", splitDetails := "r",
    tasks :=
      [{ id := "task-1", title := "P", description := "", status := .pending,
         priority := .medium, dependsOn := some [], parentId := none,
         subtaskIds := some ["task-2"], failureReason := none, completedDetails := "" },
       { id := "task-2", title := "C", description := "", status := .pending,
         priority := .high, dependsOn := some [], parentId := some "task-1",
         subtaskIds := some [], failureReason := none, completedDetails := "" }],
    completed := false }

/-- The high-priority subtask of `exampleStore7`, the selected head. -/
def exampleHead7 : Task :=
  { id := "task-2", title := "C", description := "", status := .pending,
    priority := .high, dependsOn := some [], parentId := some "task-1",
    subtaskIds := some [], failureReason := none, completedDetails := "" }

/-- Planning a request with a low-priority task before a high-priority
one. -/
def exampleStore1 : Store :=
  (requestPlanning initialStore "r"
    [{ title := "A", description := "", priority := some .low, dependsOn := none },
     { title := "B", description := "", priority := some .high, dependsOn := none }] none).1

/-- The request entry created inside `exampleStore1`. -/
def exampleReq1 : RequestEntry :=
  { requestId := "req-1", originalRequest := "r", splitDetails := "r",
    tasks :=
      [{ id := "task-1", title := "A", description := "", status := .pending,
         priority := .low, dependsOn := some [], parentId := none, subtaskIds := none,
         failureReason := none, completedDetails := "" },
       { id := "task-2", title := "B", description := "", status := .pending,
         priority := .high, dependsOn := some [], parentId := none, subtaskIds := none,
         failureReason := none, completedDetails := "" }],
    completed := false }

/-- Planning a request where `task-2` (X) depends on the pending
`task-1` (Y). -/
def exampleStore2 : Store :=
  (requestPlanning initialStore "r"
    [{ title := "Y", description := "", priority := some .low, dependsOn := none },
     { title := "X", description := "", priority := some .high,
       dependsOn := some ["task-1"] }] none).1

/-- The request entry created inside `exampleStore2`. -/
def exampleReq2 : RequestEntry :=
  { requestId := "req-1", originalRequest := "r", splitDetails := "r",
    tasks :=
      [{ id := "task-1", title := "Y", description := "", status := .pending,
         priority := .low, dependsOn := some [], parentId := none, subtaskIds := none,
         failureReason := none, completedDetails := "" },
       { id := "task-2", title := "X", description := "", status := .pending,
         priority := .high, dependsOn := some ["task-1"], parentId := none,
         subtaskIds := none, failureReason := none, completedDetails := "" }],
    completed := false }

/-- A parent task `task-1` with two subtasks `task-2`, `task-3`. -/
def exampleStore3 : Store :=
  (addSubtask (addSubtask (requestPlanning initialStore "r"
      [{ title := "P", description := "", priority := none, dependsOn := none }] none).1
    "req-1" "task-1" "c1" "" none none).1 "req-1" "task-1" "c2" "" none none).1

/-- The request entry inside `exampleStore3`. -/
def exampleReq3 : RequestEntry :=
  { requestId := "req-1", originalRequest := "r", splitDetails := "r",
    tasks :=
      [{ id := "task-1", title := "P", description := "", status := .pending,
         priority := .medium, dependsOn := some [], parentId := none,
         subtaskIds := some ["task-2", "task-3"], failureReason := none,
         completedDetails := "" },
       { id := "task-2", title := "c1", description := "", status := .pending,
         priority := .medium, dependsOn := some [], parentId := some "task-1",
         subtaskIds := some [], failureReason := none, completedDetails := "" },
       { id := "task-3", title := "c2", description := "", status := .pending,
         priority := .medium, dependsOn := some [], parentId := some "task-1",
         subtaskIds := some [], failureReason := none, completedDetails := "" }],
    completed := false }

/-- The parent task of `exampleReq3`. -/
def exampleRoot3 : Task :=
  { id := "task-1", title := "P", description := "", status := .pending,
    priority := .medium, dependsOn := some [], parentId := none,
    subtaskIds := some ["task-2", "task-3"], failureReason := none,
    completedDetails := "" }

/-- The already-done subtask of `exampleReq3a`. -/
def exampleDone2 : Task :=
  { id := "task-2", title := "c1", description := "", status := .done,
    priority := .medium, dependsOn := some [], parentId := some "task-1",
    subtaskIds := some [], failureReason := none,
    completedDetails := "Completed successfully" }

/-- `exampleStore3` after `task-2` is already done: marking `task-3` will
auto-complete the parent. -/
def exampleStore3a : Store :=
  (markTaskDone exampleStore3 "req-1" "task-2" none).1

/-- The request entry inside `exampleStore3a` (subtask `task-2` already
done). -/
def exampleReq3a : RequestEntry :=
  { requestId := "req-1", originalRequest := "r", splitDetails := "r",
    tasks :=
      [{ id := "task-1", title := "P", description := "", status := .pending,
         priority := .medium, dependsOn := some [], parentId := none,
         subtaskIds := some ["task-2", "task-3"], failureReason := none,
         completedDetails := "" },
       { id := "task-2", title := "c1", description := "", status := .done,
         priority := .medium, dependsOn := some [], parentId := some "task-1",
         subtaskIds := some [], failureReason := none,
         completedDetails := "Completed successfully" },
       { id := "task-3", title := "c2", description := "", status := .pending,
         priority := .medium, dependsOn := some [], parentId := some "task-1",
         subtaskIds := some [], failureReason := none, completedDetails := "" }],
    completed := false }

/-- Two tasks depending on each other. -/
def exampleStore4 : Store :=
  (addDependency (addDependency (requestPlanning initialStore "r"
    [{ title := "A", description := "", priority := none, dependsOn := none },
     { title := "B", description := "", priority := none, dependsOn := none }] none).1
    "req-1" "task-1" "task-2").1 "req-1" "task-2" "task-1").1

/-- The request entry inside `exampleStore4` (the A-B dependency
cycle). -/
def exampleReq4 : RequestEntry :=
  { requestId := "req-1", originalRequest := "r", splitDetails := "r",
    tasks :=
      [{ id := "task-1", title := "A", description := "", status := .pending,
         priority := .medium, dependsOn := some ["task-2"], parentId := none,
         subtaskIds := none, failureReason := none, completedDetails := "" },
       { id := "task-2", title := "B", description := "", status := .pending,
         priority := .medium, dependsOn := some ["task-1"], parentId := none,
         subtaskIds := none, failureReason := none, completedDetails := "" }],
    completed := false }

/-- Planning a request with an empty task list. -/
def exampleStore5 : Store :=
  (requestPlanning initialStore "r" [] none).1

/-- A caller-supplied `dependsOn` naming the id the new task itself is
about to receive. -/
def exampleStore6 : Store :=
  (requestPlanning initialStore "r"
    [{ title := "A", description := "", priority := none,
       dependsOn := some ["task-1"] }] none).1

/-- An operation sequence reaching a completed request holding one `done`
and one `failed` task. -/
def c9ops : List Op :=
  [.requestPlanning "r"
     [{ title := "A", description := "", priority := none, dependsOn := none },
      { title := "B", description := "", priority := none, dependsOn := none }] none,
   .markTaskDone "req-1" "task-1" none,
   .markTaskFailed "req-1" "task-2" none]

/-- The `done` task of the state reached by `c9ops`. -/
def c9doneTask : Task :=
  { id := "task-1", title := "A", description := "", status := .done,
    priority := .medium, dependsOn := some [], parentId := none, subtaskIds := none,
    failureReason := none, completedDetails := "Completed successfully" }

/-- The `failed` task of the state reached by `c9ops`. -/
def c9failedTask : Task :=
  { id := "task-2", title := "B", description := "", status := .failed,
    priority := .medium, dependsOn := some [], parentId := none, subtaskIds := none,
    failureReason := some "No reason provided", completedDetails := "" }

/-- The completed request of the state reached by `c9ops`. -/
def c9req : RequestEntry :=
  { requestId := "req-1", originalRequest := "r", splitDetails := "r",
    tasks := [c9doneTask, c9failedTask], completed := true }

/-- A two-task store about to receive a `task-1 → task-2` dependency. -/
def c6Store : Store :=
  (requestPlanning initialStore "w"
    [{ title := "A", description := "", priority := none, dependsOn := none },
     { title := "B", description := "", priority := none, dependsOn := none }] none).1

/-- `task-1` of `c6Store` after `addDependency` linked it to `task-2`. -/
def c6Task : Task :=
  { id := "task-1", title := "A", description := "", status := .pending,
    priority := .medium, dependsOn := some ["task-2"], parentId := none,
    subtaskIds := none, failureReason := none, completedDetails := "" }

/-- The unchanged `task-2` of `c6Store`. -/
def c6OtherTask : Task :=
  { id := "task-2", title := "B", description := "", status := .pending,
    priority := .medium, dependsOn := some [], parentId := none,
    subtaskIds := none, failureReason := none, completedDetails := "" }

/-- The request of `c6Store` after the dependency edge was added. -/
def c6Req : RequestEntry :=
  { requestId := "req-1", originalRequest := "w", splitDetails := "w",
    tasks := [c6Task, c6OtherTask], completed := false }

/-! ## General lemmas about the embedding -/

theorem mapGet_eq_some {tasks : List Task} {id : String} {t : Task}
    (h : mapGet tasks id = some t) : t ∈ tasks ∧ t.id = id := by
  simp only [mapGet] at h
  refine ⟨List.mem_reverse.mp (List.mem_of_find?_eq_some h), ?_⟩
  simpa using List.find?_some h

theorem findTask_eq_some {tasks : List Task} {id : String} {t : Task}
    (h : findTask tasks id = some t) : t ∈ tasks ∧ t.id = id := by
  simp only [findTask] at h
  refine ⟨List.mem_of_find?_eq_some h, ?_⟩
  simpa using List.find?_some h

theorem findReq_eq_some {s : Store} {rid : String} {req : RequestEntry}
    (h : findReq s rid = some req) : req ∈ s.requests ∧ req.requestId = rid := by
  simp only [findReq] at h
  refine ⟨List.mem_of_find?_eq_some h, ?_⟩
  simpa using List.find?_some h

theorem mem_updateTaskById {tasks : List Task} {id : String} {f : Task → Task} {t' : Task}
    (h : t' ∈ updateTaskById tasks id f) :
    (∃ t ∈ tasks, t.id = id ∧ t' = f t) ∨ (t' ∈ tasks ∧ t'.id ≠ id) := by
  simp only [updateTaskById, List.mem_map] at h
  obtain ⟨t, ht, heq⟩ := h
  by_cases hid : t.id = id
  · exact Or.inl ⟨t, ht, hid, by simpa [hid] using heq.symm⟩
  · have hb : (t.id == id) = false := by simpa using hid
    have ht' : t' = t := by
      rw [← heq]
      simp [hb]
    subst ht'
    exact Or.inr ⟨ht, hid⟩

theorem mem_updateTaskById_of_ne {tasks : List Task} {id : String} {f : Task → Task} {t : Task}
    (ht : t ∈ tasks) (hne : t.id ≠ id) : t ∈ updateTaskById tasks id f := by
  simp only [updateTaskById, List.mem_map]
  exact ⟨t, ht, by simp [hne]⟩

theorem mem_updateTaskById_of_mem {tasks : List Task} {id : String} {f : Task → Task} {t : Task}
    (ht : t ∈ tasks) : (if t.id = id then f t else t) ∈ updateTaskById tasks id f := by
  simp only [updateTaskById, List.mem_map]
  refine ⟨t, ht, ?_⟩
  by_cases h : t.id = id <;> simp [h]

theorem mem_replaceReq {s : Store} {rid : String} {newReq r' : RequestEntry}
    (h : r' ∈ (replaceReq s rid newReq).requests) : r' = newReq ∨ r' ∈ s.requests := by
  simp only [replaceReq, List.mem_map] at h
  obtain ⟨r, hr, heq⟩ := h
  by_cases hid : (r.requestId == rid) = true
  · rw [if_pos hid] at heq
    exact Or.inl heq.symm
  · rw [if_neg hid] at heq
    exact Or.inr (heq ▸ hr)

theorem findReq_replaceReq {s : Store} {rid : String} {req newReq : RequestEntry}
    (h : findReq s rid = some req) (hid : newReq.requestId = rid) :
    findReq (replaceReq s rid newReq) rid = some newReq := by
  have hp : (newReq.requestId == rid) = true := by simp [hid]
  simp only [findReq, replaceReq] at h ⊢
  have key : ∀ l : List RequestEntry,
      (List.find? (fun r => r.requestId == rid) l).isSome = true →
      List.find? (fun r => r.requestId == rid)
        (l.map (fun r => if (r.requestId == rid) = true then newReq else r)) = some newReq := by
    intro l
    induction l with
    | nil => simp
    | cons r rs ih =>
      intro hsome
      by_cases hr : (r.requestId == rid) = true
      · simp only [List.map_cons]
        rw [if_pos hr]
        rw [@List.find?_cons_of_pos _ (fun r => r.requestId == rid) newReq _ hp]
      · simp only [List.map_cons]
        rw [if_neg hr]
        rw [@List.find?_cons_of_neg _ (fun r => r.requestId == rid) r _ hr]
        apply ih
        rw [@List.find?_cons_of_neg _ (fun r => r.requestId == rid) r _ hr] at hsome
        exact hsome
  apply key
  rw [h]
  rfl

/-! ## Lemmas about the selection order -/

theorem taskLE_total (tasks : List Task) (a b : Task) :
    taskLE tasks a b = true ∨ taskLE tasks b a = true := by
  simp only [taskLE, Bool.or_eq_true, Bool.and_eq_true, decide_eq_true_eq, beq_iff_eq]
  omega

theorem taskLE_trans (tasks : List Task) (a b c : Task)
    (hab : taskLE tasks a b = true) (hbc : taskLE tasks b c = true) :
    taskLE tasks a c = true := by
  simp only [taskLE, Bool.or_eq_true, Bool.and_eq_true, decide_eq_true_eq, beq_iff_eq] at *
  omega

theorem mem_insertSorted {le : Task → Task → Bool} {x y : Task} {l : List Task} :
    y ∈ insertSorted le x l ↔ y = x ∨ y ∈ l := by
  induction l with
  | nil => simp [insertSorted]
  | cons a l ih =>
    simp only [insertSorted]
    by_cases h : le x a = true
    · simp [h]
    · simp only [if_neg h, List.mem_cons, ih]
      tauto

theorem mem_sortBy {le : Task → Task → Bool} {y : Task} {l : List Task} :
    y ∈ sortBy le l ↔ y ∈ l := by
  induction l with
  | nil => simp [sortBy]
  | cons a l ih =>
    simp only [sortBy, mem_insertSorted, List.mem_cons, ih]

theorem sortBy_eq_nil {le : Task → Task → Bool} {l : List Task} :
    sortBy le l = [] ↔ l = [] := by
  cases l with
  | nil => simp [sortBy]
  | cons a l =>
    simp only [sortBy]
    constructor
    · intro h
      have : a ∈ insertSorted le a (sortBy le l) := mem_insertSorted.mpr (Or.inl rfl)
      rw [h] at this
      simp at this
    · intro h
      simp at h

theorem pairwise_insertSorted {le : Task → Task → Bool} {x : Task} {l : List Task}
    (htot : ∀ a b, le a b = true ∨ le b a = true)
    (htrans : ∀ a b c, le a b = true → le b c = true → le a c = true)
    (h : l.Pairwise (fun a b => le a b = true)) :
    (insertSorted le x l).Pairwise (fun a b => le a b = true) := by
  induction l with
  | nil => simp [insertSorted]
  | cons a l ih =>
    rw [List.pairwise_cons] at h
    simp only [insertSorted]
    by_cases hxa : le x a = true
    · rw [if_pos hxa]
      rw [List.pairwise_cons]
      refine ⟨?_, List.pairwise_cons.mpr h⟩
      intro b hb
      rcases List.mem_cons.mp hb with hb | hb
      · exact hb ▸ hxa
      · exact htrans x a b hxa (h.1 b hb)
    · rw [if_neg hxa]
      rw [List.pairwise_cons]
      refine ⟨?_, ih h.2⟩
      intro b hb
      rcases mem_insertSorted.mp hb with hb | hb
      · subst hb
        rcases htot a b with hab | hba
        · exact hab
        · exact absurd hba hxa
      · exact h.1 b hb

theorem pairwise_sortBy {le : Task → Task → Bool}
    (htot : ∀ a b, le a b = true ∨ le b a = true)
    (htrans : ∀ a b c, le a b = true → le b c = true → le a c = true)
    (l : List Task) :
    (sortBy le l).Pairwise (fun a b => le a b = true) := by
  induction l with
  | nil => simp [sortBy]
  | cons a l ih => exact pairwise_insertSorted htot htrans ih

theorem sortBy_head_min {le : Task → Task → Bool} {l tl : List Task} {hd : Task}
    (htot : ∀ a b, le a b = true ∨ le b a = true)
    (htrans : ∀ a b c, le a b = true → le b c = true → le a c = true)
    (h : sortBy le l = hd :: tl) : ∀ c ∈ l, le hd c = true := by
  intro c hc
  have hcs : c ∈ sortBy le l := mem_sortBy.mpr hc
  rw [h, List.mem_cons] at hcs
  rcases hcs with hcs | hcs
  · subst hcs
    rcases htot c c with hcc | hcc <;> exact hcc
  · have hp := pairwise_sortBy htot htrans l
    rw [h, List.pairwise_cons] at hp
    exact hp.1 c hcs

/-! ## Lemmas about the candidate set -/

theorem mem_passACandidates {tasks : List Task} {t : Task} (h : t ∈ passACandidates tasks) :
    t ∈ tasks ∧ t.status = .pending ∧ areDependenciesMet tasks t = true := by
  simp only [passACandidates, List.mem_flatMap] at h
  obtain ⟨parent, _, ht⟩ := h
  obtain ⟨subId, _, heq⟩ := List.mem_filterMap.mp ht
  cases hmg : mapGet tasks subId with
  | none => rw [hmg] at heq; simp at heq
  | some sub =>
    rw [hmg] at heq
    dsimp only at heq
    by_cases hc : (sub.status == Status.pending && areDependenciesMet tasks sub) = true
    · rw [if_pos hc] at heq
      cases heq
      have hc' : t.status = Status.pending ∧ areDependenciesMet tasks t = true := by
        simpa using hc
      exact ⟨(mapGet_eq_some hmg).1, hc'.1, hc'.2⟩
    · rw [if_neg hc] at heq
      simp at heq

theorem mem_passBCandidates {tasks : List Task} {t : Task} (h : t ∈ passBCandidates tasks) :
    t ∈ tasks ∧ (t.status = .pending ∨ t.status = .active) ∧
      areDependenciesMet tasks t = true := by
  simp only [passBCandidates, List.mem_filter] at h
  obtain ⟨hmem, hcond⟩ := h
  refine ⟨hmem, ?_⟩
  cases hp : (match t.parentId with | some pid => mapGet tasks pid | none => none) with
  | none =>
    rw [hp] at hcond
    dsimp only at hcond
    simp only [Bool.and_eq_true, Bool.or_eq_true, beq_iff_eq] at hcond
    exact hcond
  | some parent =>
    rw [hp] at hcond
    dsimp only at hcond
    by_cases hps : (parent.status == Status.active) = true
    · rw [if_pos hps] at hcond
      simp at hcond
    · rw [if_neg hps] at hcond
      simp only [Bool.and_eq_true, Bool.or_eq_true, beq_iff_eq] at hcond
      exact hcond

theorem mem_nextCandidates {tasks : List Task} {t : Task} (h : t ∈ nextCandidates tasks) :
    t ∈ tasks ∧ (t.status = .pending ∨ t.status = .active) ∧
      areDependenciesMet tasks t = true := by
  simp only [nextCandidates] at h
  by_cases he : (passACandidates tasks).isEmpty
  · rw [if_pos he] at h
    exact mem_passBCandidates h
  · rw [if_neg he] at h
    obtain ⟨h1, h2, h3⟩ := mem_passACandidates h
    exact ⟨h1, Or.inl h2, h3⟩

theorem selectedCandidate_mem {tasks : List Task} {hd : Task}
    (h : selectedCandidate tasks = some hd) : hd ∈ nextCandidates tasks := by
  simp only [selectedCandidate] at h
  cases hs : sortBy (taskLE tasks) (nextCandidates tasks) with
  | nil => rw [hs] at h; simp at h
  | cons a tl =>
    rw [hs] at h
    simp only [List.head?] at h
    injection h with h'
    subst h'
    have : a ∈ sortBy (taskLE tasks) (nextCandidates tasks) := by
      rw [hs]
      exact List.mem_cons_self _ _
    exact mem_sortBy.mp this

theorem selectedCandidate_min {tasks : List Task} {hd : Task}
    (h : selectedCandidate tasks = some hd) :
    ∀ c ∈ nextCandidates tasks, taskLE tasks hd c = true := by
  simp only [selectedCandidate] at h
  cases hs : sortBy (taskLE tasks) (nextCandidates tasks) with
  | nil => rw [hs] at h; simp at h
  | cons a tl =>
    rw [hs] at h
    simp only [List.head?] at h
    injection h with h'
    subst h'
    exact sortBy_head_min (taskLE_total tasks) (taskLE_trans tasks) hs

theorem selectedCandidate_isSome {tasks : List Task}
    (h : nextCandidates tasks ≠ []) : ∃ hd, selectedCandidate tasks = some hd := by
  simp only [selectedCandidate]
  cases hs : sortBy (taskLE tasks) (nextCandidates tasks) with
  | nil => exact absurd (sortBy_eq_nil.mp hs) h
  | cons a tl => exact ⟨a, rfl⟩

/-- In the non-completed, non-empty-candidates case, `getNextTask` returns
`.next` of the snapshot of the selected head candidate. -/
theorem getNextTask_next_eq {s : Store} {rid : String} {req : RequestEntry} {hd : Task}
    (hreq : findReq s rid = some req) (hnc : req.completed = false)
    (hsel : selectedCandidate req.tasks = some hd) :
    (getNextTask s rid).2 = .next (snapshotOf hd) := by
  have hne : nextCandidates req.tasks ≠ [] := by
    intro h0
    rw [selectedCandidate, h0] at hsel
    simp [sortBy] at hsel
  have hempty : (nextCandidates req.tasks).isEmpty = false := by
    cases hne' : nextCandidates req.tasks with
    | nil => exact absurd hne' hne
    | cons a l => simp [hne']
  simp only [getNextTask, hreq, hnc, hempty, hsel]
  by_cases hp : (hd.status == Status.pending) = true
  · simp [hp]
  · simp [hp]

/-- Whenever `getNextTask` answers `.next`, the snapshot is that of the
selected head candidate of the request's candidate set. -/
theorem getNextTask_next_inv {s : Store} {rid : String} {snap : TaskSnapshot}
    (h : (getNextTask s rid).2 = .next snap) :
    ∃ req hd, findReq s rid = some req ∧ hd ∈ nextCandidates req.tasks ∧
      selectedCandidate req.tasks = some hd ∧ snap = snapshotOf hd := by
  unfold getNextTask at h
  cases hfind : findReq s rid with
  | none => rw [hfind] at h; simp at h
  | some req =>
    rw [hfind] at h
    dsimp only at h
    by_cases hc : req.completed = true
    · rw [if_pos hc] at h
      simp at h
    · rw [if_neg hc] at h
      by_cases hemp : (nextCandidates req.tasks).isEmpty = true
      · rw [if_pos hemp] at h
        by_cases hall : (req.tasks.all fun t => statusIsTerminal t.status) = true
        · rw [if_pos hall] at h
          simp at h
        · rw [if_neg hall] at h
          simp at h
      · rw [if_neg hemp] at h
        cases hsel : selectedCandidate req.tasks with
        | none =>
          rw [hsel] at h
          simp at h
        | some hd =>
          rw [hsel] at h
          dsimp only at h
          refine ⟨req, hd, rfl, selectedCandidate_mem hsel, hsel, ?_⟩
          by_cases hp : (hd.status == Status.pending) = true
          · rw [if_pos hp] at h
            simpa using h.symm
          · rw [if_neg hp] at h
            simpa using h.symm

/-- C1: for a request that is not completed and has a non-empty candidate
set, `getNextTask` returns the candidate that is minimal in the comparator
order (parent-active first, then priority rank high < medium < low, then
ascending numeric task id — all encoded in `taskLE`), and the answer is
uniquely determined by the state, so two runs on identical state return
the same task. -/
theorem c1_selection_minimal_and_deterministic (s : Store) (rid : String)
    (req : RequestEntry) (hreq : findReq s rid = some req)
    (hnc : req.completed = false) (hcand : nextCandidates req.tasks ≠ []) :
    ∃ t ∈ nextCandidates req.tasks,
      (getNextTask s rid).2 = .next (snapshotOf t) ∧
      (∀ c ∈ nextCandidates req.tasks, taskLE req.tasks t c = true) ∧
      (∀ snap, (getNextTask s rid).2 = .next snap → snap = snapshotOf t) := by
  obtain ⟨hd, hsel⟩ := selectedCandidate_isSome hcand
  refine ⟨hd, selectedCandidate_mem hsel, getNextTask_next_eq hreq hnc hsel, ?_, ?_⟩
  · exact selectedCandidate_min hsel
  · intro snap hsnap
    have := getNextTask_next_eq hreq hnc hsel
    rw [this] at hsnap
    exact (GetNextTaskResult.next.inj hsnap).symm

/-- C1 witness: in `exampleStore1` the high-priority `task-2` is selected
despite its larger id. -/
theorem c1_witness :
    findReq exampleStore1 "req-1" = some exampleReq1 ∧
    exampleReq1.completed = false ∧
    nextCandidates exampleReq1.tasks ≠ [] ∧
    ∃ t ∈ nextCandidates exampleReq1.tasks,
      (getNextTask exampleStore1 "req-1").2 = .next (snapshotOf t) ∧
      (∀ c ∈ nextCandidates exampleReq1.tasks, taskLE exampleReq1.tasks t c = true) ∧
      (∀ snap, (getNextTask exampleStore1 "req-1").2 = .next snap → snap = snapshotOf t) :=
  ⟨by decide, by decide, by decide,
    c1_selection_minimal_and_deterministic exampleStore1 "req-1" exampleReq1
      (by decide) (by decide) (by decide)⟩

/-- C2: `getNextTask` never returns a task with a non-empty `dependsOn`
set one of whose ids fails to resolve to a `done` task in the request (a
dangling id counts as unmet). -/
theorem c2_unmet_dependencies_never_selected (s : Store) (rid : String)
    (req : RequestEntry) (X : Task) (hreq : findReq s rid = some req)
    (hX : X ∈ req.tasks) (hne : X.dependsOn.getD [] ≠ [])
    (hunmet : ∃ d ∈ X.dependsOn.getD [],
      ∀ dt, mapGet req.tasks d = some dt → dt.status ≠ .done) :
    ∀ snap, (getNextTask s rid).2 = .next snap → snap ≠ snapshotOf X := by
  intro snap hsnap hContra
  obtain ⟨req', hd, hfind', hmem, _, hsnapEq⟩ := getNextTask_next_inv hsnap
  rw [hreq] at hfind'
  cases hfind'
  obtain ⟨_, _, hmet⟩ := mem_nextCandidates hmem
  have hdep : hd.dependsOn = X.dependsOn := by
    have : snapshotOf hd = snapshotOf X := hsnapEq ▸ hContra
    simpa [snapshotOf] using congrArg TaskSnapshot.dependsOn this
  rw [areDependenciesMet, hdep] at hmet
  obtain ⟨d, hdmem, hdfail⟩ := hunmet
  have := List.all_eq_true.mp hmet d hdmem
  cases hmg : mapGet req.tasks d with
  | none => rw [hmg] at this; simp at this
  | some dt =>
    rw [hmg] at this
    exact hdfail dt hmg (by simpa using this)

/-- C2 witness: in `exampleStore2`, `task-2` depends on the pending
`task-1`, so the returned task is not X even though X has the higher
priority. -/
theorem c2_witness :
    findReq exampleStore2 "req-1" = some exampleReq2 ∧
    ∃ X ∈ exampleReq2.tasks, X.id = "task-2" ∧ X.dependsOn.getD [] ≠ [] ∧
      ∀ snap, (getNextTask exampleStore2 "req-1").2 = .next snap → snap ≠ snapshotOf X := by
  refine ⟨by decide, ?_⟩
  refine ⟨{ id := "task-2", title := "X", description := "", status := .pending,
            priority := .high, dependsOn := some ["task-1"], parentId := none,
            subtaskIds := none, failureReason := none, completedDetails := "" },
          by decide, by decide, by decide, ?_⟩
  refine c2_unmet_dependencies_never_selected exampleStore2 "req-1" exampleReq2 _
    (by decide) (by decide) (by decide) ⟨"task-1", by decide, ?_⟩
  intro dt hdt
  have hmg : mapGet exampleReq2.tasks "task-1" =
      some { id := "task-1", title := "Y", description := "", status := .pending,
             priority := .low, dependsOn := some [], parentId := none,
             subtaskIds := none, failureReason := none, completedDetails := "" } := by decide
  rw [hmg] at hdt
  cases hdt
  decide

/-! ## Lemmas about selection-time activation (claim C3) -/

theorem activateSelected_head_active {tasks : List Task} {hd : Task} :
    ∀ t' ∈ activateSelected tasks hd, t'.id = hd.id → t'.status = .active := by
  intro t' ht' hid
  simp only [activateSelected] at ht'
  rcases mem_updateTaskById ht' with ⟨t, _, _, rfl⟩ | ⟨_, hne⟩
  · rfl
  · exact absurd hid hne

theorem activateSelected_parent_active {tasks : List Task} {hd parent : Task} {pid : String}
    (hpid : hd.parentId = some pid) (hparent : mapGet tasks pid = some parent)
    (hpst : parent.status = .pending) :
    ∀ t' ∈ activateSelected tasks hd, t'.id = pid → t'.status = .active := by
  intro t' ht' hid
  simp only [activateSelected, hpid, hparent] at ht'
  rw [if_pos (by simp [hpst])] at ht'
  rcases mem_updateTaskById ht' with ⟨t, _, _, rfl⟩ | ⟨ht1, hne⟩
  · rfl
  · rcases mem_updateTaskById ht1 with ⟨t, _, _, rfl⟩ | ⟨_, hne2⟩
    · rfl
    · exact absurd hid hne2

theorem activateSelected_other_unchanged {tasks : List Task} {hd : Task} :
    ∀ t ∈ tasks, t.id ≠ hd.id →
      (∀ pid, hd.parentId = some pid → t.id ≠ pid) →
      t ∈ activateSelected tasks hd := by
  intro t ht hne hnp
  simp only [activateSelected]
  apply mem_updateTaskById_of_ne _ hne
  cases hp : hd.parentId with
  | none =>
    dsimp only
    exact ht
  | some pid =>
    dsimp only
    cases hmg : mapGet tasks pid with
    | none =>
      dsimp only
      exact ht
    | some parent =>
      dsimp only
      by_cases hps : (parent.status == Status.pending) = true
      · rw [if_pos hps]
        exact mem_updateTaskById_of_ne ht (hnp pid hp)
      · rw [if_neg hps]
        exact ht

/-- In the pending-head case the new store replaces the request's tasks
with `activateSelected`, leaving `completed` alone. -/
theorem getNextTask_store_pending {s : Store} {rid : String} {req : RequestEntry} {hd : Task}
    (hreq : findReq s rid = some req) (hnc : req.completed = false)
    (hsel : selectedCandidate req.tasks = some hd) (hp : hd.status = .pending) :
    (getNextTask s rid).1 =
      replaceReq s rid { req with tasks := activateSelected req.tasks hd } := by
  have hne : nextCandidates req.tasks ≠ [] := by
    intro h0
    rw [selectedCandidate, h0] at hsel
    simp [sortBy] at hsel
  have hempty : (nextCandidates req.tasks).isEmpty = false := by
    cases hne' : nextCandidates req.tasks with
    | nil => exact absurd hne' hne
    | cons a l => simp [hne']
  simp only [getNextTask, hreq, hnc, hempty, hsel]
  simp [hp]

/-- In the already-active-head case `getNextTask` does not change the
store at all. -/
theorem getNextTask_store_active {s : Store} {rid : String} {req : RequestEntry} {hd : Task}
    (hreq : findReq s rid = some req) (hnc : req.completed = false)
    (hsel : selectedCandidate req.tasks = some hd) (hp : hd.status = .active) :
    (getNextTask s rid).1 = s := by
  have hne : nextCandidates req.tasks ≠ [] := by
    intro h0
    rw [selectedCandidate, h0] at hsel
    simp [sortBy] at hsel
  have hempty : (nextCandidates req.tasks).isEmpty = false := by
    cases hne' : nextCandidates req.tasks with
    | nil => exact absurd hne' hne
    | cons a l => simp [hne']
  simp only [getNextTask, hreq, hnc, hempty, hsel]
  simp [hp]

/-- C3: if the selected head candidate is `pending`, then (i) every task
carrying its id becomes `active`, (ii) a resolvable parent that was
`pending` becomes `active` — one level only: (iii) every task other than
the head and its parent is carried over unchanged, and the request's
`completed` flag is untouched; if the head is already `active`, the store
is returned completely unchanged (re-selection is idempotent). -/
theorem c3_selection_activates_single_level (s : Store) (rid : String)
    (req : RequestEntry) (hd : Task) (hreq : findReq s rid = some req)
    (hnc : req.completed = false) (hsel : selectedCandidate req.tasks = some hd) :
    (hd.status = .pending →
      ∃ req', findReq (getNextTask s rid).1 rid = some req' ∧
        req'.completed = req.completed ∧
        (∀ t' ∈ req'.tasks, t'.id = hd.id → t'.status = .active) ∧
        (∀ pid parent, hd.parentId = some pid → mapGet req.tasks pid = some parent →
          parent.status = .pending → ∀ t' ∈ req'.tasks, t'.id = pid → t'.status = .active) ∧
        (∀ t ∈ req.tasks, t.id ≠ hd.id →
          (∀ pid, hd.parentId = some pid → t.id ≠ pid) → t ∈ req'.tasks)) ∧
    (hd.status = .active → (getNextTask s rid).1 = s) := by
  constructor
  · intro hp
    rw [getNextTask_store_pending hreq hnc hsel hp]
    refine ⟨{ req with tasks := activateSelected req.tasks hd },
      findReq_replaceReq hreq (findReq_eq_some hreq).2, rfl, ?_, ?_, ?_⟩
    · exact activateSelected_head_active
    · intro pid parent hpid hparent hpst
      exact activateSelected_parent_active hpid hparent hpst
    · exact activateSelected_other_unchanged
  · intro hp
    exact getNextTask_store_active hreq hnc hsel hp

/-- C3 witness: in `exampleStore7` the selected head is the pending
high-priority subtask `task-2`; selecting it activates both the subtask
and its previously pending parent `task-1`. -/
theorem c3_witness :
    findReq exampleStore7 "req-1" = some exampleReq7 ∧
    selectedCandidate exampleReq7.tasks = some exampleHead7 ∧
    ((exampleHead7.status = .pending →
      ∃ req', findReq (getNextTask exampleStore7 "req-1").1 "req-1" = some req' ∧
        req'.completed = exampleReq7.completed ∧
        (∀ t' ∈ req'.tasks, t'.id = exampleHead7.id → t'.status = .active) ∧
        (∀ pid parent, exampleHead7.parentId = some pid →
          mapGet exampleReq7.tasks pid = some parent →
          parent.status = .pending → ∀ t' ∈ req'.tasks, t'.id = pid → t'.status = .active) ∧
        (∀ t ∈ exampleReq7.tasks, t.id ≠ exampleHead7.id →
          (∀ pid, exampleHead7.parentId = some pid → t.id ≠ pid) → t ∈ req'.tasks)) ∧
     (exampleHead7.status = .active → (getNextTask exampleStore7 "req-1").1 = exampleStore7)) :=
  ⟨by decide, by decide,
    c3_selection_activates_single_level exampleStore7 "req-1" exampleReq7 exampleHead7
      (by decide) (by decide) (by decide)⟩

/-! ## Lemmas about terminal-state propagation (claim C4) -/

theorem propagateToParent_applies {tasks : List Task} {pid : String} {parent : Task}
    {msg : String} {subs : List String}
    (hfind : findTask tasks pid = some parent)
    (hpst : parent.status = .pending ∨ parent.status = .active)
    (hsubs : parent.subtaskIds = some subs)
    (hterm : ∀ sid ∈ subs, resolvesTerminal tasks sid = true) :
    propagateToParent tasks (some pid) msg = updateTaskById tasks pid (autoCompleteUpdate msg) := by
  simp only [propagateToParent, hfind, hsubs]
  rw [if_pos (by rcases hpst with h | h <;> simp [h])]
  rw [if_pos (List.all_eq_true.mpr hterm)]

theorem propagateToParent_other_unchanged {tasks : List Task} {parentId : Option String}
    {msg : String} :
    ∀ t ∈ tasks, (∀ pid, parentId = some pid → t.id ≠ pid) →
      t ∈ propagateToParent tasks parentId msg := by
  intro t ht hnp
  cases hp : parentId with
  | none => simpa [propagateToParent] using ht
  | some pid =>
    simp only [propagateToParent]
    cases hfind : findTask tasks pid with
    | none => exact ht
    | some parent =>
      dsimp only
      by_cases hps : (parent.status == Status.pending || parent.status == Status.active) = true
      · rw [if_pos hps]
        by_cases hall : (match parent.subtaskIds with
            | none => false
            | some subIds => subIds.all (resolvesTerminal tasks)) = true
        · rw [if_pos hall]
          exact mem_updateTaskById_of_ne ht (hnp pid hp)
        · rw [if_neg hall]
          exact ht
      · rw [if_neg hps]
        exact ht

theorem markTaskDone_store {s : Store} {rid tid : String} {d : Option String}
    {req : RequestEntry} {task : Task}
    (hreq : findReq s rid = some req) (htask : findTask req.tasks tid = some task)
    (hnd : task.status ≠ .done) (hnf : task.status ≠ .failed) :
    (markTaskDone s rid tid d).1 = replaceReq s rid (completeIfAllTerminal req
      (propagateToParent (updateTaskById req.tasks tid (markDoneUpdate d)) task.parentId
        "Automatically completed as all subtasks are terminal.")) := by
  simp only [markTaskDone, hreq, htask]
  rw [if_neg (by simp [hnd]), if_neg (by simp [hnf])]

theorem markTaskFailed_store {s : Store} {rid tid : String} {r : Option String}
    {req : RequestEntry} {task : Task}
    (hreq : findReq s rid = some req) (htask : findTask req.tasks tid = some task)
    (hnd : task.status ≠ .done) (hnf : task.status ≠ .failed) :
    (markTaskFailed s rid tid r).1 = replaceReq s rid (completeIfAllTerminal req
      (propagateToParent (updateTaskById req.tasks tid (markFailedUpdate r)) task.parentId
        "Automatically completed as all subtasks are terminal (some may have failed).")) := by
  simp only [markTaskFailed, hreq, htask]
  rw [if_neg (by simp [hnf]), if_neg (by simp [hnd])]

/-- C4: when `markTaskDone` or `markTaskFailed` moves a task into a
terminal status, and the task's parent (looked up in the already-updated
task list) is `pending` or `active` with every id of its `subtaskIds`
resolving to a terminal task, the parent is forced to `done` — even when
some subtask failed; the propagation is single-level: every task other
than the marked task and the parent is carried over unchanged, so the
grandparent is untouched. -/
theorem c4_terminal_propagates_to_parent_once (s : Store) (rid tid : String)
    (d r : Option String) (req : RequestEntry) (task : Task) (pid : String)
    (parent : Task) (subs : List String)
    (hreq : findReq s rid = some req)
    (htask : findTask req.tasks tid = some task)
    (hst : task.status = .pending ∨ task.status = .active)
    (hpid : task.parentId = some pid) :
    ((findTask (updateTaskById req.tasks tid (markDoneUpdate d)) pid = some parent →
      (parent.status = .pending ∨ parent.status = .active) →
      parent.subtaskIds = some subs →
      (∀ sid ∈ subs,
        resolvesTerminal (updateTaskById req.tasks tid (markDoneUpdate d)) sid = true) →
      ∃ req', findReq (markTaskDone s rid tid d).1 rid = some req' ∧
        (∀ t' ∈ req'.tasks, t'.id = pid → t'.status = .done) ∧
        (∀ t ∈ req.tasks, t.id ≠ tid → t.id ≠ pid → t ∈ req'.tasks)) ∧
     (findTask (updateTaskById req.tasks tid (markFailedUpdate r)) pid = some parent →
      (parent.status = .pending ∨ parent.status = .active) →
      parent.subtaskIds = some subs →
      (∀ sid ∈ subs,
        resolvesTerminal (updateTaskById req.tasks tid (markFailedUpdate r)) sid = true) →
      ∃ req', findReq (markTaskFailed s rid tid r).1 rid = some req' ∧
        (∀ t' ∈ req'.tasks, t'.id = pid → t'.status = .done) ∧
        (∀ t ∈ req.tasks, t.id ≠ tid → t.id ≠ pid → t ∈ req'.tasks))) := by
  have hnd : task.status ≠ .done := by rcases hst with h | h <;> simp [h]
  have hnf : task.status ≠ .failed := by rcases hst with h | h <;> simp [h]
  constructor
  · intro hparent hpst hsubs hterm
    rw [markTaskDone_store hreq htask hnd hnf, hpid,
      propagateToParent_applies hparent hpst hsubs hterm]
    refine ⟨_, findReq_replaceReq hreq (findReq_eq_some hreq).2, ?_, ?_⟩
    · intro t' ht' hid
      rcases mem_updateTaskById ht' with ⟨t, _, _, rfl⟩ | ⟨_, hne⟩
      · rfl
      · exact absurd hid hne
    · intro t ht hne1 hne2
      exact mem_updateTaskById_of_ne (mem_updateTaskById_of_ne ht hne1) hne2
  · intro hparent hpst hsubs hterm
    rw [markTaskFailed_store hreq htask hnd hnf, hpid,
      propagateToParent_applies hparent hpst hsubs hterm]
    refine ⟨_, findReq_replaceReq hreq (findReq_eq_some hreq).2, ?_, ?_⟩
    · intro t' ht' hid
      rcases mem_updateTaskById ht' with ⟨t, _, _, rfl⟩ | ⟨_, hne⟩
      · rfl
      · exact absurd hid hne
    · intro t ht hne1 hne2
      exact mem_updateTaskById_of_ne (mem_updateTaskById_of_ne ht hne1) hne2

/-- C4 witness: in `exampleStore3a` (where subtask `task-2` is already
done) marking `task-3` done leaves every sibling of `task-1` terminal, so
the parent `task-1` is forced to `done`. -/
theorem c4_witness :
    findReq exampleStore3a "req-1" = some exampleReq3a ∧
    (∀ sid ∈ ["task-2", "task-3"],
      resolvesTerminal (updateTaskById exampleReq3a.tasks "task-3"
        (markDoneUpdate none)) sid = true) ∧
    ∃ req', findReq (markTaskDone exampleStore3a "req-1" "task-3" none).1 "req-1" = some req' ∧
      (∀ t' ∈ req'.tasks, t'.id = "task-1" → t'.status = .done) ∧
      (∀ t ∈ exampleReq3a.tasks, t.id ≠ "task-3" → t.id ≠ "task-1" → t ∈ req'.tasks) := by
  refine ⟨by decide, by decide, ?_⟩
  exact (c4_terminal_propagates_to_parent_once exampleStore3a "req-1" "task-3" none none
    exampleReq3a
    { id := "task-3", title := "c2", description := "", status := .pending,
      priority := .medium, dependsOn := some [], parentId := some "task-1",
      subtaskIds := some [], failureReason := none, completedDetails := "" }
    "task-1"
    { id := "task-1", title := "P", description := "", status := .pending,
      priority := .medium, dependsOn := some [], parentId := none,
      subtaskIds := some ["task-2", "task-3"], failureReason := none,
      completedDetails := "" }
    ["task-2", "task-3"]
    (by decide) (by decide) (by decide) (by decide)).1
    (by decide) (by decide) (by decide) (by decide)

/-! ## Lemmas about the delete worklist (claims C7, C10) -/

theorem collect_superset_acc {tasks : List Task} {queue acc : List String} :
    ∀ x ∈ acc, x ∈ collectTasksToDelete tasks queue acc := by
  induction queue, acc using collectTasksToDelete.induct tasks with
  | case1 acc =>
    rw [collectTasksToDelete]
    exact fun x hx => hx
  | case2 acc currentId rest hcont ih =>
    rw [collectTasksToDelete]
    rw [if_pos hcont]
    exact ih
  | case3 acc currentId rest hcont task heq ih =>
    rw [collectTasksToDelete]
    rw [if_neg hcont, heq]
    exact fun x hx => ih x (List.mem_append_left _ hx)
  | case4 acc currentId rest hcont heq ih =>
    rw [collectTasksToDelete]
    rw [if_neg hcont, heq]
    exact fun x hx => ih x (List.mem_append_left _ hx)

theorem collect_sound {tasks : List Task} {root : String} :
    ∀ {queue acc : List String},
      (∀ q ∈ queue, Relation.ReflTransGen (childEdge tasks) root q) →
      (∀ a ∈ acc, Relation.ReflTransGen (childEdge tasks) root a) →
      ∀ x ∈ collectTasksToDelete tasks queue acc,
        Relation.ReflTransGen (childEdge tasks) root x := by
  intro queue acc
  induction queue, acc using collectTasksToDelete.induct tasks with
  | case1 acc =>
    intro _ hacc x hx
    rw [collectTasksToDelete] at hx
    exact hacc x hx
  | case2 acc currentId rest hcont ih =>
    intro hq hacc x hx
    rw [collectTasksToDelete, if_pos hcont] at hx
    exact ih (fun q hqm => hq q (List.mem_cons_of_mem _ hqm)) hacc x hx
  | case3 acc currentId rest hcont task heq ih =>
    intro hq hacc x hx
    rw [collectTasksToDelete, if_neg hcont, heq] at hx
    refine ih ?_ ?_ x hx
    · intro q hqm
      rcases List.mem_append.mp hqm with hqm | hqm
      · exact hq q (List.mem_cons_of_mem _ hqm)
      · obtain ⟨hqsub, hqsome⟩ := List.mem_filter.mp hqm
        exact Relation.ReflTransGen.tail (hq currentId (List.mem_cons_self _ _))
          ⟨task, heq, hqsub, hqsome⟩
    · intro a ham
      rcases List.mem_append.mp ham with ham | ham
      · exact hacc a ham
      · rw [List.mem_singleton] at ham
        exact ham ▸ hq currentId (List.mem_cons_self _ _)
  | case4 acc currentId rest hcont heq ih =>
    intro hq hacc x hx
    rw [collectTasksToDelete, if_neg hcont, heq] at hx
    refine ih (fun q hqm => hq q (List.mem_cons_of_mem _ hqm)) ?_ x hx
    intro a ham
    rcases List.mem_append.mp ham with ham | ham
    · exact hacc a ham
    · rw [List.mem_singleton] at ham
      exact ham ▸ hq currentId (List.mem_cons_self _ _)

theorem collect_closed {tasks : List Task} :
    ∀ {queue acc : List String},
      (∀ a ∈ acc, ∀ b, childEdge tasks a b → b ∈ acc ∨ b ∈ queue) →
      ∀ a ∈ collectTasksToDelete tasks queue acc, ∀ b, childEdge tasks a b →
        b ∈ collectTasksToDelete tasks queue acc := by
  intro queue acc
  induction queue, acc using collectTasksToDelete.induct tasks with
  | case1 acc =>
    intro hinv a ha b hab
    rw [collectTasksToDelete] at ha ⊢
    rcases hinv a ha b hab with hb | hb
    · exact hb
    · simp at hb
  | case2 acc currentId rest hcont ih =>
    intro hinv a ha b hab
    rw [collectTasksToDelete, if_pos hcont] at ha ⊢
    refine ih ?_ a ha b hab
    intro a' ha' b' hab'
    rcases hinv a' ha' b' hab' with hb | hb
    · exact Or.inl hb
    · rcases List.mem_cons.mp hb with hb | hb
      · exact Or.inl (hb ▸ (by simpa using hcont))
      · exact Or.inr hb
  | case3 acc currentId rest hcont task heq ih =>
    intro hinv a ha b hab
    rw [collectTasksToDelete, if_neg hcont, heq] at ha ⊢
    refine ih ?_ a ha b hab
    intro a' ha' b' hab'
    rcases List.mem_append.mp ha' with ha' | ha'
    · rcases hinv a' ha' b' hab' with hb | hb
      · exact Or.inl (List.mem_append_left _ hb)
      · rcases List.mem_cons.mp hb with hb | hb
        · exact Or.inl (List.mem_append_right _ (by simp [hb]))
        · exact Or.inr (List.mem_append_left _ hb)
    · rw [List.mem_singleton] at ha'
      subst ha'
      obtain ⟨t, ht, hbsub, hbsome⟩ := hab'
      rw [heq] at ht
      cases ht
      exact Or.inr (List.mem_append_right _ (List.mem_filter.mpr ⟨hbsub, hbsome⟩))
  | case4 acc currentId rest hcont heq ih =>
    intro hinv a ha b hab
    rw [collectTasksToDelete, if_neg hcont, heq] at ha ⊢
    refine ih ?_ a ha b hab
    intro a' ha' b' hab'
    rcases List.mem_append.mp ha' with ha' | ha'
    · rcases hinv a' ha' b' hab' with hb | hb
      · exact Or.inl (List.mem_append_left _ hb)
      · rcases List.mem_cons.mp hb with hb | hb
        · exact Or.inl (List.mem_append_right _ (by simp [hb]))
        · exact Or.inr hb
    · rw [List.mem_singleton] at ha'
      subst ha'
      obtain ⟨t, ht, _, _⟩ := hab'
      rw [heq] at ht
      cases ht

theorem root_mem_collect {tasks : List Task} {rootId : String}
    (h : (mapGet tasks rootId).isSome = true) :
    rootId ∈ collectTasksToDelete tasks [rootId] [] := by
  rw [collectTasksToDelete]
  rw [if_neg (by simp)]
  cases heq : mapGet tasks rootId with
  | none => rw [heq] at h; simp at h
  | some task =>
    dsimp only
    exact collect_superset_acc rootId (by simp)

/-- The delete worklist computes exactly the `subtaskIds`-reachable set of
the root (the root included). -/
theorem collect_eq_reachable {tasks : List Task} {rootId : String}
    (hroot : (mapGet tasks rootId).isSome = true) :
    ∀ x, x ∈ collectTasksToDelete tasks [rootId] [] ↔
      Relation.ReflTransGen (childEdge tasks) rootId x := by
  intro x
  constructor
  · intro hx
    refine collect_sound ?_ ?_ x hx
    · intro q hq
      rw [List.mem_singleton] at hq
      exact hq ▸ Relation.ReflTransGen.refl
    · intro a ha
      simp at ha
  · intro hx
    induction hx with
    | refl => exact root_mem_collect hroot
    | tail _ hedge ih =>
      exact collect_closed (by simp) _ ih _ hedge

/-! ## Lemmas about the removal pipeline (claims C7, C10) -/

theorem stripDeps_id (D : List String) (t : Task) : (stripDeps D t).id = t.id := by
  simp only [stripDeps]
  cases t.dependsOn <;> rfl

theorem stripDeps_status (D : List String) (t : Task) :
    (stripDeps D t).status = t.status := by
  simp only [stripDeps]
  cases t.dependsOn <;> rfl

theorem stripDeps_subtaskIds (D : List String) (t : Task) :
    (stripDeps D t).subtaskIds = t.subtaskIds := by
  simp only [stripDeps]
  cases t.dependsOn <;> rfl

theorem stripDeps_parentId (D : List String) (t : Task) :
    (stripDeps D t).parentId = t.parentId := by
  simp only [stripDeps]
  cases t.dependsOn <;> rfl

theorem stripDeps_deps (D : List String) (t : Task) :
    (stripDeps D t).dependsOn.getD [] =
      (t.dependsOn.getD []).filter (fun d => !D.contains d) := by
  simp only [stripDeps]
  cases hd : t.dependsOn with
  | none => simp [hd]
  | some deps =>
    dsimp only
    by_cases hemp : (deps.filter (fun depId => !D.contains depId)).isEmpty = true
    · rw [if_pos hemp]
      have hnil : deps.filter (fun depId => !D.contains depId) = [] := by
        simpa [List.isEmpty_iff] using hemp
      simpa [hd] using hnil.symm
    · rw [if_neg hemp]
      simp [hd]

theorem stripParent_id (D : List String) (t : Task) : (stripParent D t).id = t.id := by
  simp only [stripParent]
  cases hp : t.parentId with
  | none => rfl
  | some pid =>
    dsimp only
    split <;> rfl

theorem stripParent_status (D : List String) (t : Task) :
    (stripParent D t).status = t.status := by
  simp only [stripParent]
  cases hp : t.parentId with
  | none => rfl
  | some pid =>
    dsimp only
    split <;> rfl

theorem stripParent_subtaskIds (D : List String) (t : Task) :
    (stripParent D t).subtaskIds = t.subtaskIds := by
  simp only [stripParent]
  cases hp : t.parentId with
  | none => rfl
  | some pid =>
    dsimp only
    split <;> rfl

theorem stripParent_deps (D : List String) (t : Task) :
    (stripParent D t).dependsOn = t.dependsOn := by
  simp only [stripParent]
  cases hp : t.parentId with
  | none => rfl
  | some pid =>
    dsimp only
    split <;> rfl

theorem stripParent_parentId {D : List String} {t : Task} {p : String}
    (h : (stripParent D t).parentId = some p) : D.contains p = false := by
  simp only [stripParent] at h
  cases hp : t.parentId with
  | none =>
    rw [hp] at h
    dsimp only at h
    rw [hp] at h
    exact absurd h (by simp)
  | some pid =>
    rw [hp] at h
    dsimp only at h
    by_cases hc : D.contains pid = true
    · rw [if_pos hc] at h
      simp at h
    · rw [if_neg hc] at h
      rw [hp] at h
      cases h
      cases hcc : D.contains p
      · rfl
      · exact absurd hcc (by simpa using hc)

theorem cleanupTask_id (D : List String) (t : Task) : (cleanupTask D t).id = t.id := by
  rw [cleanupTask, stripParent_id, stripDeps_id]

theorem cleanupTask_status (D : List String) (t : Task) :
    (cleanupTask D t).status = t.status := by
  rw [cleanupTask, stripParent_status, stripDeps_status]

theorem cleanupTask_subtaskIds (D : List String) (t : Task) :
    (cleanupTask D t).subtaskIds = t.subtaskIds := by
  rw [cleanupTask, stripParent_subtaskIds, stripDeps_subtaskIds]

theorem cleanupTask_deps (D : List String) (t : Task) :
    (cleanupTask D t).dependsOn.getD [] =
      (t.dependsOn.getD []).filter (fun d => !D.contains d) := by
  rw [cleanupTask, stripParent_deps, stripDeps_deps]

theorem cleanupTask_parentId {D : List String} {t : Task} {p : String}
    (h : (cleanupTask D t).parentId = some p) : D.contains p = false := by
  rw [cleanupTask] at h
  exact stripParent_parentId h

theorem unlinkUpdate_id (x : String) (t : Task) : (unlinkUpdate x t).id = t.id := by
  simp only [unlinkUpdate]
  cases t.subtaskIds <;> rfl

theorem unlinkUpdate_status (x : String) (t : Task) :
    (unlinkUpdate x t).status = t.status := by
  simp only [unlinkUpdate]
  cases t.subtaskIds <;> rfl

theorem unlinkUpdate_not_mem (x : String) (t : Task) :
    x ∉ (unlinkUpdate x t).subtaskIds.getD [] := by
  simp only [unlinkUpdate]
  cases hs : t.subtaskIds with
  | none =>
    dsimp only
    simp [hs]
  | some subs =>
    dsimp only
    by_cases hemp : (subs.filter (fun i => i != x)).isEmpty = true
    · rw [if_pos hemp]
      simp
    · rw [if_neg hemp]
      intro hmem
      have h2 := List.of_mem_filter hmem
      simp at h2

theorem mem_unlinkFromParent {tasks : List Task} {x : String} {t1 : Task}
    (h : t1 ∈ unlinkFromParent tasks x) :
    ∃ t ∈ tasks, t1.id = t.id ∧ t1.status = t.status ∧
      (t1 = t ∨ t1 = unlinkUpdate x t) := by
  simp only [unlinkFromParent] at h
  cases hmg : mapGet tasks x with
  | none =>
    rw [hmg] at h
    exact ⟨t1, h, rfl, rfl, Or.inl rfl⟩
  | some taskToRemove =>
    rw [hmg] at h
    dsimp only at h
    cases hp : taskToRemove.parentId with
    | none =>
      rw [hp] at h
      exact ⟨t1, h, rfl, rfl, Or.inl rfl⟩
    | some pid =>
      rw [hp] at h
      dsimp only at h
      rcases mem_updateTaskById h with ⟨t, ht, _, rfl⟩ | ⟨ht, _⟩
      · exact ⟨t, ht, unlinkUpdate_id x t, unlinkUpdate_status x t, Or.inr rfl⟩
      · exact ⟨t1, ht, rfl, rfl, Or.inl rfl⟩

theorem unlinkFromParent_exists {tasks : List Task} (x : String) {t : Task}
    (ht : t ∈ tasks) :
    ∃ t1 ∈ unlinkFromParent tasks x, t1.id = t.id := by
  simp only [unlinkFromParent]
  cases hmg : mapGet tasks x with
  | none => exact ⟨t, ht, rfl⟩
  | some taskToRemove =>
    dsimp only
    cases hp : taskToRemove.parentId with
    | none => exact ⟨t, ht, rfl⟩
    | some pid =>
      dsimp only
      refine ⟨if t.id = pid then unlinkUpdate x t else t, mem_updateTaskById_of_mem ht, ?_⟩
      by_cases hc : t.id = pid
      · simp [hc, unlinkUpdate_id]
      · simp [hc]

/-- When the root exists, the removal returns the request with the cleaned
task list, and reports `true` (the root itself was removed). -/
theorem removeTaskAndDescendants_some {req : RequestEntry} {rootId : String}
    {rootTask : Task} (hmg : mapGet req.tasks rootId = some rootTask) :
    removeTaskAndDescendants req rootId =
      ({ req with tasks := removedCleaned req rootId }, true) := by
  simp only [removeTaskAndDescendants, hmg, Option.isNone_some, Bool.false_eq_true, if_false]
  congr 1
  rw [decide_eq_true_eq]
  have hrootmem : rootId ∈ collectTasksToDelete req.tasks [rootId] [] :=
    root_mem_collect (by simp [hmg])
  obtain ⟨t1, ht1, hid1⟩ :=
    unlinkFromParent_exists rootId (mapGet_eq_some hmg).1
  rw [List.length_map]
  apply List.length_filter_lt_length_iff_exists.mpr
  refine ⟨t1, ht1, ?_⟩
  simp [hid1, (mapGet_eq_some hmg).2, hrootmem]

/-- When the root is missing, the removal is the identity and reports
`false`. -/
theorem removeTaskAndDescendants_none {req : RequestEntry} {rootId : String}
    (hmg : mapGet req.tasks rootId = none) :
    removeTaskAndDescendants req rootId = (req, false) := by
  simp [removeTaskAndDescendants, hmg]

theorem mem_removedCleaned {req : RequestEntry} {rootId : String} {t' : Task}
    (h : t' ∈ removedCleaned req rootId) :
    ∃ t2, t2 ∈ unlinkFromParent req.tasks rootId ∧
      ((collectTasksToDelete req.tasks [rootId] []).contains t2.id) = false ∧
      t' = cleanupTask (collectTasksToDelete req.tasks [rootId] []) t2 := by
  simp only [removedCleaned, List.mem_map] at h
  obtain ⟨t2, ht2, heq⟩ := h
  obtain ⟨hmem, hpass⟩ := List.mem_filter.mp ht2
  refine ⟨t2, hmem, ?_, heq.symm⟩
  cases hc : (collectTasksToDelete req.tasks [rootId] []).contains t2.id
  · rfl
  · rw [hc] at hpass
    simp at hpass

theorem mem_removedCleaned_status {req : RequestEntry} {rootId : String} {t' : Task}
    (h : t' ∈ removedCleaned req rootId) :
    ∃ t0 ∈ req.tasks, t0.id = t'.id ∧ t0.status = t'.status := by
  obtain ⟨t2, hmem, _, rfl⟩ := mem_removedCleaned h
  obtain ⟨t0, ht0, hid, hst, _⟩ := mem_unlinkFromParent hmem
  exact ⟨t0, ht0, by rw [cleanupTask_id, hid], by rw [cleanupTask_status, hst]⟩

theorem removedCleaned_survivor {req : RequestEntry} {rootId : String} {t : Task}
    (ht : t ∈ req.tasks)
    (hnot : t.id ∉ collectTasksToDelete req.tasks [rootId] []) :
    ∃ t' ∈ removedCleaned req rootId, t'.id = t.id := by
  obtain ⟨t1, ht1, hid1⟩ := unlinkFromParent_exists rootId ht
  have hpass : (!(collectTasksToDelete req.tasks [rootId] []).contains t1.id) = true := by
    simp [hid1, hnot]
  refine ⟨cleanupTask (collectTasksToDelete req.tasks [rootId] []) t1, ?_, ?_⟩
  · simp only [removedCleaned, List.mem_map]
    exact ⟨t1, List.mem_filter.mpr ⟨ht1, hpass⟩, rfl⟩
  · rw [cleanupTask_id, hid1]

/-- C7: the cascading delete removes exactly the root and its
`subtaskIds`-reachable descendants, keeps every other task (an orphaned
task survives as top-level), removes the root id from its former parent's
`subtaskIds`, strips every surviving `dependsOn` or `parentId` reference
into the removed set, and returns `false` exactly when the root id does
not exist in the request. -/
theorem c7_cascading_delete_exact (req : RequestEntry) (rootId : String) :
    ((removeTaskAndDescendants req rootId).2 = false ↔ mapGet req.tasks rootId = none) ∧
    (∀ rootTask, mapGet req.tasks rootId = some rootTask →
      (removeTaskAndDescendants req rootId).2 = true ∧
      (∀ x, x ∈ collectTasksToDelete req.tasks [rootId] [] ↔
        Relation.ReflTransGen (childEdge req.tasks) rootId x) ∧
      (∀ t ∈ req.tasks, t.id ∉ collectTasksToDelete req.tasks [rootId] [] →
        ∃ t' ∈ (removeTaskAndDescendants req rootId).1.tasks, t'.id = t.id) ∧
      (∀ t' ∈ (removeTaskAndDescendants req rootId).1.tasks,
        t'.id ∉ collectTasksToDelete req.tasks [rootId] [] ∧
        (∃ t0 ∈ req.tasks, t0.id = t'.id ∧ t0.status = t'.status) ∧
        (∀ d ∈ t'.dependsOn.getD [], d ∉ collectTasksToDelete req.tasks [rootId] []) ∧
        (∀ p, t'.parentId = some p → p ∉ collectTasksToDelete req.tasks [rootId] [])) ∧
      (∀ pid, rootTask.parentId = some pid →
        ∀ t' ∈ (removeTaskAndDescendants req rootId).1.tasks, t'.id = pid →
          rootId ∉ t'.subtaskIds.getD [])) := by
  constructor
  · cases hmg : mapGet req.tasks rootId with
    | none =>
      rw [removeTaskAndDescendants_none hmg]
      simp
    | some rootTask =>
      rw [removeTaskAndDescendants_some hmg]
      simp
  · intro rootTask hmg
    rw [removeTaskAndDescendants_some hmg]
    refine ⟨rfl, collect_eq_reachable (by simp [hmg]), ?_, ?_, ?_⟩
    · intro t ht hnot
      exact removedCleaned_survivor ht hnot
    · intro t' ht'
      obtain ⟨t2, hmem, hpass, rfl⟩ := mem_removedCleaned ht'
      refine ⟨?_, mem_removedCleaned_status (by
        simp only [removedCleaned, List.mem_map]
        exact ⟨t2, List.mem_filter.mpr ⟨hmem, by rw [hpass]; rfl⟩, rfl⟩), ?_, ?_⟩
      · rw [cleanupTask_id]
        simpa using hpass
      · intro d hd
        rw [cleanupTask_deps] at hd
        have := List.of_mem_filter hd
        simpa using this
      · intro p hp
        have := cleanupTask_parentId hp
        simpa using this
    · intro pid hpid t' ht' hid'
      obtain ⟨t2, hmem, _, rfl⟩ := mem_removedCleaned ht'
      rw [cleanupTask_subtaskIds]
      rw [cleanupTask_id] at hid'
      simp only [unlinkFromParent, hmg, hpid] at hmem
      rcases mem_updateTaskById hmem with ⟨t, _, _, rfl⟩ | ⟨_, hne⟩
      · exact unlinkUpdate_not_mem rootId t
      · exact absurd hid' hne

/-- C7 witness: deleting the root `task-1` of `exampleReq3` (two
subtasks) is reported as a removal, the removed set is the reachable set,
and the survivors are clean. -/
theorem c7_witness :
    (removeTaskAndDescendants exampleReq3 "task-1").2 = true ∧
    (∀ x, x ∈ collectTasksToDelete exampleReq3.tasks ["task-1"] [] ↔
      Relation.ReflTransGen (childEdge exampleReq3.tasks) "task-1" x) ∧
    (∀ t ∈ exampleReq3.tasks, t.id ∉ collectTasksToDelete exampleReq3.tasks ["task-1"] [] →
      ∃ t' ∈ (removeTaskAndDescendants exampleReq3 "task-1").1.tasks, t'.id = t.id) ∧
    (∀ t' ∈ (removeTaskAndDescendants exampleReq3 "task-1").1.tasks,
      t'.id ∉ collectTasksToDelete exampleReq3.tasks ["task-1"] [] ∧
      (∃ t0 ∈ exampleReq3.tasks, t0.id = t'.id ∧ t0.status = t'.status) ∧
      (∀ d ∈ t'.dependsOn.getD [], d ∉ collectTasksToDelete exampleReq3.tasks ["task-1"] []) ∧
      (∀ p, t'.parentId = some p → p ∉ collectTasksToDelete exampleReq3.tasks ["task-1"] [])) ∧
    (∀ pid, exampleRoot3.parentId = some pid →
      ∀ t' ∈ (removeTaskAndDescendants exampleReq3 "task-1").1.tasks, t'.id = pid →
        "task-1" ∉ t'.subtaskIds.getD []) :=
  (c7_cascading_delete_exact exampleReq3 "task-1").2 exampleRoot3 (by decide)

/-- C10: `deleteTask` answers an error exactly when the request id or the
task id does not resolve; the task's status imposes no precondition (an
existing task is always removed, whatever its status), and the deletion
propagates no completion: the request's `completed` flag and every
survivor's status are unchanged. -/
theorem c10_deleteTask_errors_iff_missing (s : Store) (rid tid : String) :
    ((deleteTask s rid tid).2 = .reqNotFound ↔ findReq s rid = none) ∧
    ((deleteTask s rid tid).2 = .taskNotFound ↔
      ∃ req, findReq s rid = some req ∧ findTask req.tasks tid = none) ∧
    ((deleteTask s rid tid).2 = .removed ↔
      ∃ req, findReq s rid = some req ∧ (findTask req.tasks tid).isSome = true) ∧
    (∀ req, findReq s rid = some req → ∀ task, findTask req.tasks tid = some task →
      ∃ req', findReq (deleteTask s rid tid).1 rid = some req' ∧
        req'.completed = req.completed ∧
        ∀ t' ∈ req'.tasks, ∃ t0 ∈ req.tasks, t0.id = t'.id ∧ t0.status = t'.status) := by
  cases hfind : findReq s rid with
  | none =>
    have hdel : deleteTask s rid tid = (s, RemoveResult.reqNotFound) := by
      simp only [deleteTask, hfind]
    rw [hdel]
    refine ⟨by simp, ?_, ?_, ?_⟩
    · constructor
      · intro h
        exact absurd h (by simp)
      · rintro ⟨req, hreq, _⟩
        exact Option.noConfusion hreq
    · constructor
      · intro h
        exact absurd h (by simp)
      · rintro ⟨req, hreq, _⟩
        exact Option.noConfusion hreq
    · intro req hreq
      exact absurd hreq (by simp)
  | some req =>
    cases hft : findTask req.tasks tid with
    | none =>
      have hdel : deleteTask s rid tid = (s, RemoveResult.taskNotFound) := by
        simp only [deleteTask, hfind, hft]
      rw [hdel]
      refine ⟨by simp, ?_, ?_, ?_⟩
      · constructor
        · intro _
          exact ⟨req, rfl, hft⟩
        · intro _
          rfl
      · constructor
        · intro h
          exact absurd h (by simp)
        · rintro ⟨req', hreq', hsome⟩
          cases hreq'
          rw [hft] at hsome
          exact absurd hsome (by simp)
      · intro req' hreq' task htask
        cases hreq'
        rw [hft] at htask
        exact Option.noConfusion htask
    | some task =>
      have hmemtask : task ∈ req.tasks ∧ task.id = tid := findTask_eq_some hft
      have hmgsome : (mapGet req.tasks tid).isSome = true := by
        simp only [mapGet, List.find?_isSome]
        exact ⟨task, List.mem_reverse.mpr hmemtask.1, by simp [hmemtask.2]⟩
      obtain ⟨rootTask, hmg⟩ := Option.isSome_iff_exists.mp hmgsome
      have hdel : deleteTask s rid tid =
          (replaceReq s rid { req with tasks := removedCleaned req tid },
           RemoveResult.removed) := by
        simp only [deleteTask, hfind, hft, removeTaskAndDescendants_some hmg]
        rw [if_pos trivial]
      rw [hdel]
      refine ⟨by simp, ?_, ?_, ?_⟩
      · constructor
        · intro h
          exact absurd h (by simp)
        · rintro ⟨req', hreq', hnone⟩
          cases hreq'
          rw [hft] at hnone
          exact Option.noConfusion hnone
      · constructor
        · intro _
          exact ⟨req, rfl, by simp [hft]⟩
        · intro _
          rfl
      · intro req' hreq' task' htask'
        cases hreq'
        refine ⟨_, findReq_replaceReq hfind (findReq_eq_some hfind).2, rfl, ?_⟩
        intro t' ht'
        exact mem_removedCleaned_status ht'

/-- C10 witness: deleting the already-`done` subtask `task-2` of
`exampleReq3a` succeeds despite its terminal status, and no completion
propagates. -/
theorem c10_witness :
    ((deleteTask exampleStore3a "req-1" "task-2").2 = .removed ↔
      ∃ req, findReq exampleStore3a "req-1" = some req ∧
        (findTask req.tasks "task-2").isSome = true) ∧
    ∃ req', findReq (deleteTask exampleStore3a "req-1" "task-2").1 "req-1" = some req' ∧
      req'.completed = exampleReq3a.completed ∧
      ∀ t' ∈ req'.tasks, ∃ t0 ∈ exampleReq3a.tasks, t0.id = t'.id ∧ t0.status = t'.status :=
  ⟨(c10_deleteTask_errors_iff_missing exampleStore3a "req-1" "task-2").2.2.1,
   (c10_deleteTask_errors_iff_missing exampleStore3a "req-1" "task-2").2.2.2
     exampleReq3a (by decide)
     { id := "task-2", title := "c1", description := "", status := .done,
       priority := .medium, dependsOn := some [], parentId := some "task-1",
       subtaskIds := some [], failureReason := none,
       completedDetails := "Completed successfully" }
     (by decide)⟩

/-! ## Lemmas about dependency validation (claim C8) -/

theorem cycleDeps_issues {tasks : List Task} {recurse : String → CycleState → CycleState}
    (hrec : ∀ id st, st.cycleFound = false →
      ∃ e, (recurse id st).issues = st.issues ++ e ∧ e.length ≤ 1 ∧
        ((recurse id st).cycleFound = false → e = []))
    (taskId : String) :
    ∀ (deps : List String) (st : CycleState), st.cycleFound = false →
      ∃ e, (cycleDeps tasks recurse taskId deps st).issues = st.issues ++ e ∧
        e.length ≤ 1 ∧
        ((cycleDeps tasks recurse taskId deps st).cycleFound = false → e = []) := by
  intro deps
  induction deps with
  | nil =>
    intro st hst
    exact ⟨[], by simp [cycleDeps], by simp, fun _ => rfl⟩
  | cons depId rest ih =>
    intro st hst
    simp only [cycleDeps]
    by_cases h1 : (!(mapGet tasks depId).isSome) = true
    · rw [if_pos h1]
      exact ih st hst
    · rw [if_neg h1]
      by_cases h2 : (!st.visited.contains depId) = true
      · rw [if_pos h2]
        obtain ⟨e1, he1, hlen1, hflag1⟩ := hrec depId st hst
        cases hcf : (recurse depId st).cycleFound with
        | true =>
          rw [if_pos rfl]
          exact ⟨e1, he1, hlen1, fun hf => absurd hf (by simp [hcf])⟩
        | false =>
          rw [if_neg (by simp)]
          have he1nil : e1 = [] := hflag1 hcf
          obtain ⟨e2, he2, hlen2, hflag2⟩ := ih (recurse depId st) hcf
          refine ⟨e2, ?_, hlen2, hflag2⟩
          rw [he2, he1, he1nil]
          simp
      · rw [if_neg h2]
        by_cases h3 : st.stack.contains depId = true
        · rw [if_pos h3]
          exact ⟨[circularMsg taskId depId], rfl, by simp, fun hf => absurd hf (by simp)⟩
        · rw [if_neg h3]
          exact ih st hst

theorem detectCycle_issues {tasks : List Task} :
    ∀ (fuel : Nat) (id : String) (st : CycleState), st.cycleFound = false →
      ∃ e, (detectCycle tasks fuel id st).issues = st.issues ++ e ∧ e.length ≤ 1 ∧
        ((detectCycle tasks fuel id st).cycleFound = false → e = []) := by
  intro fuel
  induction fuel with
  | zero =>
    intro id st hst
    exact ⟨[], by simp [detectCycle], by simp, fun _ => rfl⟩
  | succ fuel ih =>
    intro id st hst
    simp only [detectCycle]
    rw [if_neg (by simp [hst])]
    obtain ⟨e, he, hlen, hflag⟩ :=
      cycleDeps_issues (fun id' st' h' => ih id' st' h') id
        (match mapGet tasks id with
          | some task => task.dependsOn.getD []
          | none => [])
        { st with visited := id :: st.visited, stack := id :: st.stack } hst
    cases hcf : (cycleDeps tasks (detectCycle tasks fuel) id
        (match mapGet tasks id with
          | some task => task.dependsOn.getD []
          | none => [])
        { st with visited := id :: st.visited, stack := id :: st.stack }).cycleFound with
    | true =>
      rw [if_pos rfl]
      exact ⟨e, he, hlen, fun hf => absurd hf (by simp [hcf])⟩
    | false =>
      rw [if_neg (by simp)]
      exact ⟨e, he, hlen, fun _ => hflag hcf⟩

theorem cycleRunStep_issues {tasks : List Task} (task : Task) :
    ∀ st : CycleState, st.cycleFound = false →
      ∃ e, (cycleRunStep tasks st task).issues = st.issues ++ e ∧ e.length ≤ 1 ∧
        ((cycleRunStep tasks st task).cycleFound = false → e = []) := by
  intro st hst
  simp only [cycleRunStep]
  by_cases hc : (!st.visited.contains task.id && !st.cycleFound) = true
  · rw [if_pos hc]
    exact detectCycle_issues _ _ _ hst
  · rw [if_neg hc]
    exact ⟨[], by simp, by simp, fun _ => rfl⟩

theorem cycleRunStep_found {tasks : List Task} {task : Task} {st : CycleState}
    (hst : st.cycleFound = true) : cycleRunStep tasks st task = st := by
  simp [cycleRunStep, hst]

theorem foldl_cycleRunStep_found {tasks : List Task} :
    ∀ (l : List Task) (st : CycleState), st.cycleFound = true →
      l.foldl (cycleRunStep tasks) st = st := by
  intro l
  induction l with
  | nil => intro st _; rfl
  | cons task l ih =>
    intro st hst
    rw [List.foldl_cons, cycleRunStep_found hst]
    exact ih st hst

theorem foldl_cycleRunStep_issues {tasks : List Task} :
    ∀ (l : List Task) (st : CycleState), st.cycleFound = false →
      ∃ e, (l.foldl (cycleRunStep tasks) st).issues = st.issues ++ e ∧ e.length ≤ 1 := by
  intro l
  induction l with
  | nil =>
    intro st _
    exact ⟨[], by simp, by simp⟩
  | cons task l ih =>
    intro st hst
    rw [List.foldl_cons]
    obtain ⟨e1, he1, hlen1, hflag1⟩ := cycleRunStep_issues task st hst
    cases hcf : (cycleRunStep tasks st task).cycleFound with
    | true =>
      rw [foldl_cycleRunStep_found l _ hcf]
      exact ⟨e1, he1, hlen1⟩
    | false =>
      have he1nil : e1 = [] := hflag1 hcf
      obtain ⟨e2, he2, hlen2⟩ := ih _ hcf
      refine ⟨e2, ?_, hlen2⟩
      rw [he2, he1, he1nil]
      simp

/-- The issue list built by `validateDependencies` is the dangling-issue
list followed by at most one circular-dependency message. -/
theorem allIssues_decomposition (tasks : List Task) :
    ∃ cyc, allIssues tasks = danglingIssues tasks ++ cyc ∧ cyc.length ≤ 1 := by
  simp only [allIssues, runCycleDetection]
  obtain ⟨e, he, hlen⟩ := foldl_cycleRunStep_issues tasks
    { visited := [], stack := [], issues := danglingIssues tasks, cycleFound := false } rfl
  exact ⟨e, he, hlen⟩

theorem mem_dedupIssues {issues : List String} {x : String} :
    x ∈ dedupIssues issues ↔ x ∈ issues := by
  have key : ∀ (l acc : List String),
      x ∈ l.foldl (fun acc y => if acc.contains y then acc else acc ++ [y]) acc ↔
        x ∈ acc ∨ x ∈ l := by
    intro l
    induction l with
    | nil => intro acc; simp
    | cons y l ih =>
      intro acc
      rw [List.foldl_cons]
      by_cases hc : acc.contains y = true
      · rw [if_pos hc]
        rw [ih]
        constructor
        · rintro (h | h)
          · exact Or.inl h
          · exact Or.inr (List.mem_cons_of_mem _ h)
        · rintro (h | h)
          · exact Or.inl h
          · rcases List.mem_cons.mp h with h | h
            · subst h
              exact Or.inl (by simpa using hc)
            · exact Or.inr h
      · rw [if_neg hc]
        rw [ih]
        constructor
        · rintro (h | h)
          · rcases List.mem_append.mp h with h | h
            · exact Or.inl h
            · rw [List.mem_singleton] at h
              exact Or.inr (List.mem_cons.mpr (Or.inl h))
          · exact Or.inr (List.mem_cons_of_mem _ h)
        · rintro (h | h)
          · exact Or.inl (List.mem_append_left _ h)
          · rcases List.mem_cons.mp h with h | h
            · exact Or.inl (List.mem_append_right _ (by simp [h]))
            · exact Or.inr h
  have := key issues []
  simpa [dedupIssues] using this

theorem dedupIssues_eq_nil {issues : List String} :
    dedupIssues issues = [] ↔ issues = [] := by
  constructor
  · intro h
    cases hi : issues with
    | nil => rfl
    | cons a l =>
      have : a ∈ dedupIssues issues := mem_dedupIssues.mpr (by simp [hi])
      rw [h] at this
      simp at this
  · intro h
    simp [h, dedupIssues]

theorem mem_danglingIssues_intro {tasks : List Task} {t : Task} {depId : String}
    (ht : t ∈ tasks) (hdep : depId ∈ t.dependsOn.getD [])
    (hmg : mapGet tasks depId = none) :
    danglingMsg t.id depId ∈ danglingIssues tasks := by
  simp only [danglingIssues, List.mem_flatMap]
  refine ⟨t, ht, ?_⟩
  simp only [List.mem_filterMap]
  exact ⟨depId, hdep, by simp [hmg]⟩

/-- C8: `validateDependencies` reports one dangling-reference issue per
unresolvable `dependsOn` id, surfaces at most one circular-dependency
issue (detection stops at the first back-edge), deduplicates the issues
before returning them, and answers `validation_passed` exactly when the
returned issue list is empty; in particular two tasks depending on each
other yield `validation_failed` with a circular-dependency issue. -/
theorem c8_validate_dependencies_report (s : Store) (rid : String) (req : RequestEntry)
    (hreq : findReq s rid = some req) :
    (∃ cyc, (cyc = [] ∨ ∃ msg, cyc = [msg]) ∧
      allIssues req.tasks = danglingIssues req.tasks ++ cyc) ∧
    (∀ t ∈ req.tasks, ∀ depId ∈ t.dependsOn.getD [], mapGet req.tasks depId = none →
      danglingMsg t.id depId ∈ (validateDependencies s rid).issues) ∧
    ((validateDependencies s rid).status = "validation_passed" ↔
      (validateDependencies s rid).issues = []) ∧
    ((validateDependencies s rid).issues = dedupIssues (allIssues req.tasks)) ∧
    ((validateDependencies exampleStore4 "req-1").status = "validation_failed" ∧
      circularMsg "task-2" "task-1" ∈ (validateDependencies exampleStore4 "req-1").issues) := by
  have hdecomp : ∃ cyc, (cyc = [] ∨ ∃ msg, cyc = [msg]) ∧
      allIssues req.tasks = danglingIssues req.tasks ++ cyc := by
    obtain ⟨cyc, hcyc, hlen⟩ := allIssues_decomposition req.tasks
    refine ⟨cyc, ?_, hcyc⟩
    cases cyc with
    | nil => exact Or.inl rfl
    | cons m rest =>
      cases rest with
      | nil => exact Or.inr ⟨m, rfl⟩
      | cons m2 rest2 => simp at hlen
  by_cases hemp : (allIssues req.tasks).isEmpty = true
  · have hnil : allIssues req.tasks = [] := by simpa [List.isEmpty_iff] using hemp
    have hval : validateDependencies s rid = { status := "validation_passed", issues := [] } := by
      simp only [validateDependencies, hreq]
      rw [if_neg (by simp [hemp])]
    rw [hval]
    refine ⟨hdecomp, ?_, by simp, ?_, by decide⟩
    · intro t ht depId hdep hmg
      have hmem : danglingMsg t.id depId ∈ danglingIssues req.tasks :=
        mem_danglingIssues_intro ht hdep hmg
      obtain ⟨cyc, _, hcyc⟩ := hdecomp
      have : danglingMsg t.id depId ∈ allIssues req.tasks := by
        rw [hcyc]
        exact List.mem_append_left _ hmem
      rw [hnil] at this
      simp at this
    · rw [hnil]
      simp [dedupIssues]
  · have hne : allIssues req.tasks ≠ [] := by
      intro h
      rw [h] at hemp
      simp at hemp
    have hval : validateDependencies s rid =
        { status := "validation_failed", issues := dedupIssues (allIssues req.tasks) } := by
      simp only [validateDependencies, hreq]
      rw [if_pos (by simpa using hemp)]
    rw [hval]
    refine ⟨hdecomp, ?_, ?_, rfl, by decide⟩
    · intro t ht depId hdep hmg
      have hmem : danglingMsg t.id depId ∈ danglingIssues req.tasks :=
        mem_danglingIssues_intro ht hdep hmg
      obtain ⟨cyc, _, hcyc⟩ := hdecomp
      apply mem_dedupIssues.mpr
      rw [hcyc]
      exact List.mem_append_left _ hmem
    · constructor
      · intro h
        have hne2 : ("validation_failed" : String) ≠ "validation_passed" := by decide
        exact absurd h hne2
      · intro h
        exact absurd (dedupIssues_eq_nil.mp h) hne

/-- C8 witness: the mutual A-B dependency of `exampleStore4` fails
validation with a circular-dependency issue, and the issue list is the
deduplicated dangling-plus-cycle list. -/
theorem c8_witness :
    (∃ cyc, (cyc = [] ∨ ∃ msg, cyc = [msg]) ∧
      allIssues exampleReq4.tasks = danglingIssues exampleReq4.tasks ++ cyc) ∧
    ((validateDependencies exampleStore4 "req-1").status = "validation_passed" ↔
      (validateDependencies exampleStore4 "req-1").issues = []) ∧
    ((validateDependencies exampleStore4 "req-1").issues =
      dedupIssues (allIssues exampleReq4.tasks)) ∧
    ((validateDependencies exampleStore4 "req-1").status = "validation_failed" ∧
      circularMsg "task-2" "task-1" ∈ (validateDependencies exampleStore4 "req-1").issues) := by
  obtain ⟨h1, _, h3, h4, h5⟩ :=
    c8_validate_dependencies_report exampleStore4 "req-1" exampleReq4 (by decide)
  exact ⟨h1, h3, h4, h5⟩

/-! ## Minted task ids are pairwise distinct -/

theorem digitChar_val {m : Nat} (h : m < 10) : (Nat.digitChar m).toNat - 48 = m := by
  interval_cases m <;> decide

theorem toDigitsCore_foldl :
    ∀ (fuel n : Nat) (ds : List Char) (acc : Nat), n < fuel →
      ∃ P, 0 < P ∧ n < P ∧
        (Nat.toDigitsCore 10 fuel n ds).foldl (fun a c => a * 10 + (c.toNat - 48)) acc =
          ds.foldl (fun a c => a * 10 + (c.toNat - 48)) (acc * P + n) := by
  intro fuel
  induction fuel with
  | zero =>
    intro n ds acc h
    omega
  | succ fuel ih =>
    intro n ds acc h
    simp only [Nat.toDigitsCore]
    by_cases h10 : n / 10 = 0
    · rw [if_pos h10]
      have hn10 : n < 10 := by omega
      refine ⟨10, by omega, hn10, ?_⟩
      rw [List.foldl_cons]
      rw [digitChar_val (Nat.mod_lt _ (by omega))]
      rw [Nat.mod_eq_of_lt hn10]
    · rw [if_neg h10]
      have hpos : 0 < n := by
        rcases Nat.eq_zero_or_pos n with h0 | h0
        · rw [h0] at h10
          simp at h10
        · exact h0
      have hlt : n / 10 < fuel := by
        have h1 : n / 10 < n := Nat.div_lt_self hpos (by omega)
        omega
      obtain ⟨P, hP0, hPn, hfold⟩ := ih (n / 10) (Nat.digitChar (n % 10) :: ds) acc hlt
      refine ⟨P * 10, by omega, ?_, ?_⟩
      · have hdm := Nat.div_add_mod n 10
        have hm : n % 10 < 10 := Nat.mod_lt _ (by omega)
        have : n / 10 + 1 ≤ P := hPn
        omega
      · rw [hfold, List.foldl_cons]
        rw [digitChar_val (Nat.mod_lt _ (by omega))]
        have hdm := Nat.div_add_mod n 10
        congr 1
        ring_nf
        omega

theorem foldl_toString_data (n : Nat) :
    (toString n).data.foldl (fun a c => a * 10 + (c.toNat - 48)) 0 = n := by
  have hrepr : (toString n).data = Nat.toDigitsCore 10 (n + 1) n [] := rfl
  rw [hrepr]
  obtain ⟨P, _, _, hfold⟩ := toDigitsCore_foldl (n + 1) n [] 0 (Nat.lt_succ_self n)
  rw [hfold]
  simp

theorem toString_nat_inj {k m : Nat} (h : toString k = toString m) : k = m := by
  have hk := foldl_toString_data k
  have hm := foldl_toString_data m
  rw [h] at hk
  rw [hk] at hm
  exact hm

theorem taskIdStr_inj {k m : Nat} (h : taskIdStr k = taskIdStr m) : k = m := by
  simp only [taskIdStr] at h
  have hdata : ("task-" ++ toString k).data = ("task-" ++ toString m).data := by rw [h]
  rw [String.data_append, String.data_append] at hdata
  have hd : (toString k).data = (toString m).data := List.append_cancel_left hdata
  exact toString_nat_inj (String.ext hd)

/-! ## Generic lemmas for the invariant induction -/

theorem updateTaskById_map_id {tasks : List Task} {id : String} {f : Task → Task}
    (hf : ∀ t, (f t).id = t.id) :
    (updateTaskById tasks id f).map Task.id = tasks.map Task.id := by
  simp only [updateTaskById, List.map_map]
  apply List.map_congr_left
  intro t _
  simp only [Function.comp]
  by_cases h : (t.id == id) = true
  · rw [if_pos h]
    exact hf t
  · rw [if_neg h]

theorem nodup_task_unique {tasks : List Task} (hn : (tasks.map Task.id).Nodup)
    {a b : Task} (ha : a ∈ tasks) (hb : b ∈ tasks) (hid : a.id = b.id) : a = b :=
  List.inj_on_of_nodup_map hn ha hb hid

theorem reqWF_mono {n n' : Nat} (h : n ≤ n') {r : RequestEntry} (hr : ReqWF n r) :
    ReqWF n' r := by
  refine ⟨?_, hr.2⟩
  intro t ht
  obtain ⟨k, h1, h2, h3⟩ := hr.1 t ht
  exact ⟨k, h1, le_trans h2 h, h3⟩

theorem reqWF_of_map_id_eq {n : Nat} {r r' : RequestEntry}
    (hids : r'.tasks.map Task.id = r.tasks.map Task.id) (hr : ReqWF n r) : ReqWF n r' := by
  refine ⟨?_, by rw [hids]; exact hr.2⟩
  intro t ht
  have hmem : t.id ∈ r.tasks.map Task.id := by
    rw [← hids]
    exact List.mem_map_of_mem Task.id ht
  obtain ⟨t0, ht0, hid0⟩ := List.mem_map.mp hmem
  obtain ⟨k, h1, h2, h3⟩ := hr.1 t0 ht0
  exact ⟨k, h1, h2, by rw [← hid0, h3]⟩

theorem reqWF_of_sublist {n : Nat} {r r' : RequestEntry}
    (hsub : (r'.tasks.map Task.id).Sublist (r.tasks.map Task.id))
    (hids : ∀ t ∈ r'.tasks, ∃ t0 ∈ r.tasks, t0.id = t.id)
    (hr : ReqWF n r) : ReqWF n r' := by
  refine ⟨?_, hsub.nodup hr.2⟩
  intro t ht
  obtain ⟨t0, ht0, hid0⟩ := hids t ht
  obtain ⟨k, h1, h2, h3⟩ := hr.1 t0 ht0
  exact ⟨k, h1, h2, by rw [← hid0, h3]⟩

theorem taskFieldsInv_activate {t : Task} (h : TaskFieldsInv t)
    (hst : t.status = .pending ∨ t.status = .active) :
    TaskFieldsInv { t with status := Status.active } := by
  constructor
  · intro _
    exact h.1 (by rcases hst with h' | h' <;> simp [h'])
  · intro _
    exact h.2 (by rcases hst with h' | h' <;> simp [h'])

theorem taskFieldsInv_markDone (d : Option String) (t : Task) :
    TaskFieldsInv (markDoneUpdate d t) :=
  ⟨fun _ => rfl, fun h => absurd rfl h⟩

theorem taskFieldsInv_markFailed (r : Option String) (t : Task) :
    TaskFieldsInv (markFailedUpdate r t) :=
  ⟨fun h => absurd rfl h, fun _ => rfl⟩

theorem taskFieldsInv_autoComplete (msg : String) {t : Task} (h : TaskFieldsInv t)
    (hst : t.status = .pending ∨ t.status = .active) :
    TaskFieldsInv (autoCompleteUpdate msg t) := by
  constructor
  · intro _
    exact h.1 (by rcases hst with h' | h' <;> simp [h'])
  · intro hd
    exact absurd rfl hd

theorem newTaskFromSpec_fields (id : String) (spec : TaskSpec) :
    TaskFieldsInv (newTaskFromSpec id spec) :=
  ⟨fun _ => rfl, fun _ => rfl⟩

theorem mintTasks_ids (n : Nat) (specs : List TaskSpec) :
    (mintTasks n specs).map Task.id =
      (List.range specs.length).map (fun i => taskIdStr (n + i + 1)) := by
  simp only [mintTasks, List.map_map]
  have h1 : (Task.id ∘ fun p : Nat × TaskSpec => newTaskFromSpec (taskIdStr (n + p.1 + 1)) p.2)
      = (fun i => taskIdStr (n + i + 1)) ∘ Prod.fst := by
    funext p
    rfl
  rw [h1, ← List.map_map, List.enum_map_fst]

theorem mintTasks_nodup (n : Nat) (specs : List TaskSpec) :
    ((mintTasks n specs).map Task.id).Nodup := by
  rw [mintTasks_ids]
  apply List.Nodup.map
  · intro a b hab
    have := taskIdStr_inj hab
    omega
  · exact List.nodup_range _

theorem mintTasks_bound (n : Nat) (specs : List TaskSpec) :
    ∀ t ∈ mintTasks n specs, ∃ k, n < k ∧ k ≤ n + specs.length ∧ t.id = taskIdStr k := by
  intro t ht
  simp only [mintTasks, List.mem_map] at ht
  obtain ⟨p, hp, rfl⟩ := ht
  have hplt : p.1 < specs.length := by
    have : p.1 ∈ List.map Prod.fst specs.enum := List.mem_map_of_mem Prod.fst hp
    rw [List.enum_map_fst] at this
    exact List.mem_range.mp this
  exact ⟨n + p.1 + 1, by omega, by omega, rfl⟩

theorem mintTasks_fields (n : Nat) (specs : List TaskSpec) :
    ∀ t ∈ mintTasks n specs, TaskFieldsInv t := by
  intro t ht
  simp only [mintTasks, List.mem_map] at ht
  obtain ⟨p, _, rfl⟩ := ht
  exact newTaskFromSpec_fields _ _

theorem mintTasks_pending (n : Nat) (specs : List TaskSpec) :
    ∀ t ∈ mintTasks n specs, t.status = .pending := by
  intro t ht
  simp only [mintTasks, List.mem_map] at ht
  obtain ⟨p, _, rfl⟩ := ht
  rfl

theorem statusIsTerminal_false {st : Status} (h1 : st ≠ .done) (h2 : st ≠ .failed) :
    statusIsTerminal st = false := by
  cases st
  · rfl
  · rfl
  · exact absurd rfl h1
  · exact absurd rfl h2

theorem editTask_fields (title description : Option String) (p : Option Priority) (t : Task) :
    (editTask title description p t).id = t.id ∧
    (editTask title description p t).status = t.status ∧
    (editTask title description p t).failureReason = t.failureReason ∧
    (editTask title description p t).completedDetails = t.completedDetails := by
  simp only [editTask]
  cases p <;> by_cases h1 : (title.getD "" != "") = true <;>
    by_cases h2 : (description.getD "" != "") = true <;> simp [h1, h2]

theorem unlinkUpdate_failureReason (x : String) (t : Task) :
    (unlinkUpdate x t).failureReason = t.failureReason := by
  simp only [unlinkUpdate]
  cases t.subtaskIds <;> rfl

theorem unlinkUpdate_completedDetails (x : String) (t : Task) :
    (unlinkUpdate x t).completedDetails = t.completedDetails := by
  simp only [unlinkUpdate]
  cases t.subtaskIds <;> rfl

theorem stripDeps_failureReason (D : List String) (t : Task) :
    (stripDeps D t).failureReason = t.failureReason := by
  simp only [stripDeps]
  cases t.dependsOn <;> rfl

theorem stripDeps_completedDetails (D : List String) (t : Task) :
    (stripDeps D t).completedDetails = t.completedDetails := by
  simp only [stripDeps]
  cases t.dependsOn <;> rfl

theorem stripParent_failureReason (D : List String) (t : Task) :
    (stripParent D t).failureReason = t.failureReason := by
  simp only [stripParent]
  cases t.parentId with
  | none => rfl
  | some pid =>
    dsimp only
    split <;> rfl

theorem stripParent_completedDetails (D : List String) (t : Task) :
    (stripParent D t).completedDetails = t.completedDetails := by
  simp only [stripParent]
  cases t.parentId with
  | none => rfl
  | some pid =>
    dsimp only
    split <;> rfl

theorem cleanupTask_failureReason (D : List String) (t : Task) :
    (cleanupTask D t).failureReason = t.failureReason := by
  simp only [cleanupTask]
  rw [stripParent_failureReason, stripDeps_failureReason]

theorem cleanupTask_completedDetails (D : List String) (t : Task) :
    (cleanupTask D t).completedDetails = t.completedDetails := by
  simp only [cleanupTask]
  rw [stripParent_completedDetails, stripDeps_completedDetails]

theorem taskFieldsInv_of_fields_eq {t t' : Task} (h : TaskFieldsInv t)
    (hst : t'.status = t.status) (hfr : t'.failureReason = t.failureReason)
    (hcd : t'.completedDetails = t.completedDetails) : TaskFieldsInv t' := by
  constructor
  · intro hne
    rw [hfr]
    exact h.1 (by rw [hst] at hne; exact hne)
  · intro hne
    rw [hcd]
    exact h.2 (by rw [hst] at hne; exact hne)

/-! ## Identity of the id column under the mutating helpers -/

theorem activateSelected_map_id (tasks : List Task) (nt : Task) :
    (activateSelected tasks nt).map Task.id = tasks.map Task.id := by
  simp only [activateSelected]
  cases hp : nt.parentId with
  | none => exact updateTaskById_map_id (fun t => rfl)
  | some pid =>
    dsimp only
    cases hmg : mapGet tasks pid with
    | none => exact updateTaskById_map_id (fun t => rfl)
    | some parent =>
      dsimp only
      by_cases hps : (parent.status == Status.pending) = true
      · rw [if_pos hps]
        trans (updateTaskById tasks pid
          (fun p => { p with status := Status.active })).map Task.id
        · exact updateTaskById_map_id (fun t => rfl)
        · exact updateTaskById_map_id (fun t => rfl)
      · rw [if_neg hps]
        exact updateTaskById_map_id (fun t => rfl)

theorem propagateToParent_map_id (tasks : List Task) (pid : Option String) (d : String) :
    (propagateToParent tasks pid d).map Task.id = tasks.map Task.id := by
  simp only [propagateToParent]
  cases pid with
  | none => rfl
  | some pidv =>
    dsimp only
    cases hft : findTask tasks pidv with
    | none => rfl
    | some parentTask =>
      dsimp only
      by_cases hg : (parentTask.status == Status.pending || parentTask.status == Status.active)
          = true
      · rw [if_pos hg]
        by_cases hall : (match parentTask.subtaskIds with
            | none => false
            | some subIds => subIds.all (resolvesTerminal tasks)) = true
        · rw [if_pos hall]
          exact updateTaskById_map_id (fun t => rfl)
        · rw [if_neg hall]
      · rw [if_neg hg]

theorem unlinkFromParent_map_id (tasks : List Task) (x : String) :
    (unlinkFromParent tasks x).map Task.id = tasks.map Task.id := by
  simp only [unlinkFromParent]
  cases hmg : mapGet tasks x with
  | none => rfl
  | some t =>
    dsimp only
    cases hp : t.parentId with
    | none => rfl
    | some pid =>
      dsimp only
      exact updateTaskById_map_id (fun u => unlinkUpdate_id x u)

theorem removedCleaned_map_id_sublist (req : RequestEntry) (rootId : String) :
    ((removedCleaned req rootId).map Task.id).Sublist (req.tasks.map Task.id) := by
  have h1 : (removedCleaned req rootId).map Task.id
      = ((unlinkFromParent req.tasks rootId).filter
          (fun t => !(collectTasksToDelete req.tasks [rootId] []).contains t.id)).map
            Task.id := by
    simp only [removedCleaned, List.map_map]
    apply List.map_congr_left
    intro t _
    exact cleanupTask_id _ t
  rw [h1, ← unlinkFromParent_map_id req.tasks rootId]
  exact (List.filter_sublist _).map Task.id

theorem mem_removedCleaned_fields {req : RequestEntry} {rootId : String} {t' : Task}
    (h : t' ∈ removedCleaned req rootId) :
    ∃ t0 ∈ req.tasks, t'.status = t0.status ∧ t'.failureReason = t0.failureReason ∧
      t'.completedDetails = t0.completedDetails := by
  obtain ⟨t2, hmem, _, rfl⟩ := mem_removedCleaned h
  obtain ⟨t0, ht0, _, hst, hcase⟩ := mem_unlinkFromParent hmem
  refine ⟨t0, ht0, ?_, ?_, ?_⟩
  · rw [cleanupTask_status, hst]
  · rw [cleanupTask_failureReason]
    rcases hcase with rfl | rfl
    · rfl
    · exact unlinkUpdate_failureReason _ _
  · rw [cleanupTask_completedDetails]
    rcases hcase with rfl | rfl
    · rfl
    · exact unlinkUpdate_completedDetails _ _

/-! ## Field invariants through the status-mutating helpers -/

theorem fieldsInv_updateActivate {tasks : List Task} {id : String}
    (hF : ∀ t ∈ tasks, TaskFieldsInv t)
    (hok : ∀ t ∈ tasks, t.id = id → t.status = .pending ∨ t.status = .active) :
    ∀ t' ∈ updateTaskById tasks id (fun t => { t with status := Status.active }),
      TaskFieldsInv t' := by
  intro t' ht'
  rcases mem_updateTaskById ht' with ⟨t, ht, hid, rfl⟩ | ⟨ht, _⟩
  · exact taskFieldsInv_activate (hF t ht) (hok t ht hid)
  · exact hF t' ht

theorem fieldsInv_activateSelected {tasks : List Task} {nt : Task}
    (hn : (tasks.map Task.id).Nodup) (hF : ∀ t ∈ tasks, TaskFieldsInv t)
    (hnt : nt ∈ tasks) (hst : nt.status = .pending) :
    ∀ t' ∈ activateSelected tasks nt, TaskFieldsInv t' := by
  have core : ∀ tasks1 : List Task,
      (∀ t ∈ tasks1, TaskFieldsInv t) →
      (∀ t ∈ tasks1, t.id = nt.id → t.status = .pending ∨ t.status = .active) →
      ∀ t' ∈ updateTaskById tasks1 nt.id (fun t => { t with status := Status.active }),
        TaskFieldsInv t' := by
    intro tasks1 hF1 hok1
    exact fieldsInv_updateActivate hF1 hok1
  have hbase : ∀ t ∈ tasks, t.id = nt.id → t.status = .pending ∨ t.status = .active := by
    intro t ht hid
    rw [nodup_task_unique hn ht hnt hid, hst]
    exact Or.inl rfl
  simp only [activateSelected]
  cases hp : nt.parentId with
  | none => exact core tasks hF hbase
  | some pid =>
    dsimp only
    cases hmg : mapGet tasks pid with
    | none => exact core tasks hF hbase
    | some parent =>
      dsimp only
      by_cases hps : (parent.status == Status.pending) = true
      · rw [if_pos hps]
        obtain ⟨hparentmem, hparentid⟩ := mapGet_eq_some hmg
        apply core
        · apply fieldsInv_updateActivate hF
          intro t ht hid
          rw [nodup_task_unique hn ht hparentmem (by rw [hid, hparentid])]
          exact Or.inl (by simpa using hps)
        · intro t ht hid
          rcases mem_updateTaskById ht with ⟨t0, _, _, rfl⟩ | ⟨ht0, _⟩
          · exact Or.inr rfl
          · exact hbase t ht0 hid
      · rw [if_neg hps]
        exact core tasks hF hbase

theorem fieldsInv_propagateToParent {tasks : List Task} {pid : Option String} {d : String}
    (hn : (tasks.map Task.id).Nodup) (hF : ∀ t ∈ tasks, TaskFieldsInv t) :
    ∀ t' ∈ propagateToParent tasks pid d, TaskFieldsInv t' := by
  simp only [propagateToParent]
  cases pid with
  | none => exact hF
  | some pidv =>
    dsimp only
    cases hft : findTask tasks pidv with
    | none => exact hF
    | some parentTask =>
      dsimp only
      by_cases hg : (parentTask.status == Status.pending || parentTask.status == Status.active)
          = true
      · rw [if_pos hg]
        by_cases hall : (match parentTask.subtaskIds with
            | none => false
            | some subIds => subIds.all (resolvesTerminal tasks)) = true
        · rw [if_pos hall]
          intro t' ht'
          rcases mem_updateTaskById ht' with ⟨t, ht, hid, rfl⟩ | ⟨ht, _⟩
          · obtain ⟨hpm, hpid⟩ := findTask_eq_some hft
            have heqt : t = parentTask := nodup_task_unique hn ht hpm (by rw [hid, hpid])
            refine taskFieldsInv_autoComplete d (hF t ht) ?_
            rw [heqt]
            simpa using hg
          · exact hF t' ht
        · rw [if_neg hall]
          exact hF
      · rw [if_neg hg]
        exact hF

/-! ## The master invariant is preserved by every operation -/

theorem nodup_map_id_updateTaskById {tasks : List Task} {id : String} {f : Task → Task}
    (hf : ∀ t, (f t).id = t.id) (hn : (tasks.map Task.id).Nodup) :
    ((updateTaskById tasks id f).map Task.id).Nodup := by
  rw [updateTaskById_map_id hf]
  exact hn

theorem storeInv_replaceReq {s : Store} {rid : String} {newReq : RequestEntry}
    (h : StoreInv s) (hwf : ReqWF s.lastTaskId newReq)
    (hf : ∀ t ∈ newReq.tasks, TaskFieldsInv t) (hc : ReqCompletedInv newReq) :
    StoreInv (replaceReq s rid newReq) := by
  obtain ⟨hW, hF, hC⟩ := h
  refine ⟨?_, ?_, ?_⟩
  · intro r hr
    rcases mem_replaceReq hr with rfl | hr'
    · exact hwf
    · exact hW r hr'
  · intro r hr
    rcases mem_replaceReq hr with rfl | hr'
    · exact hf
    · exact hF r hr'
  · intro r hr
    rcases mem_replaceReq hr with rfl | hr'
    · exact hc
    · exact hC r hr'

theorem storeInv_requestPlanning {s : Store} (h : StoreInv s)
    (o : String) (specs : List TaskSpec) (sd : Option String) :
    StoreInv (requestPlanning s o specs sd).1 := by
  obtain ⟨hW, hF, hC⟩ := h
  refine ⟨?_, ?_, ?_⟩
  · intro r hr
    simp only [requestPlanning, List.mem_append, List.mem_singleton] at hr
    rcases hr with hr | rfl
    · exact reqWF_mono (Nat.le_add_right _ _) (hW r hr)
    · refine ⟨?_, mintTasks_nodup _ _⟩
      intro t ht
      obtain ⟨k, h1, h2, h3⟩ := mintTasks_bound s.lastTaskId specs t ht
      exact ⟨k, by omega, h2, h3⟩
  · intro r hr
    simp only [requestPlanning, List.mem_append, List.mem_singleton] at hr
    rcases hr with hr | rfl
    · exact hF r hr
    · exact mintTasks_fields _ _
  · intro r hr
    simp only [requestPlanning, List.mem_append, List.mem_singleton] at hr
    rcases hr with hr | rfl
    · exact hC r hr
    · intro hcomp
      simp at hcomp

theorem storeInv_getNextTask {s : Store} (h : StoreInv s) (rid : String) :
    StoreInv (getNextTask s rid).1 := by
  simp only [getNextTask]
  cases hfr : findReq s rid with
  | none => exact h
  | some req =>
    dsimp only
    obtain ⟨hreqmem, _⟩ := findReq_eq_some hfr
    by_cases hcomp : req.completed = true
    · rw [if_pos hcomp]
      exact h
    · rw [if_neg hcomp]
      by_cases hem : (nextCandidates req.tasks).isEmpty = true
      · rw [if_pos hem]
        by_cases hall : (req.tasks.all fun t => statusIsTerminal t.status) = true
        · rw [if_pos hall]
          apply storeInv_replaceReq h
          · exact reqWF_of_map_id_eq rfl (h.1 req hreqmem)
          · exact h.2.1 req hreqmem
          · intro _ t ht
            exact List.all_eq_true.mp hall t ht
        · rw [if_neg hall]
          exact h
      · rw [if_neg hem]
        cases hsel : selectedCandidate req.tasks with
        | none => exact h
        | some nextTask =>
          dsimp only
          by_cases hps : (nextTask.status == Status.pending) = true
          · rw [if_pos hps]
            apply storeInv_replaceReq h
            · exact reqWF_of_map_id_eq (activateSelected_map_id req.tasks nextTask)
                (h.1 req hreqmem)
            · exact fieldsInv_activateSelected (h.1 req hreqmem).2 (h.2.1 req hreqmem)
                (mem_nextCandidates (selectedCandidate_mem hsel)).1 (by simpa using hps)
            · intro hc
              exact absurd hc hcomp
          · rw [if_neg hps]
            exact h

theorem storeInv_addDependency {s : Store} (h : StoreInv s) (rid tid did : String) :
    StoreInv (addDependency s rid tid did).1 := by
  simp only [addDependency]
  cases hfr : findReq s rid with
  | none => exact h
  | some req =>
    dsimp only
    cases hft : findTask req.tasks tid with
    | none => exact h
    | some task =>
      dsimp only
      cases hfd : findTask req.tasks did with
      | none => exact h
      | some dep =>
        dsimp only
        by_cases heq : (tid == did) = true
        · rw [if_pos heq]
          exact h
        · rw [if_neg heq]
          by_cases hdup : ((task.dependsOn.getD []).contains did) = true
          · rw [if_pos hdup]
            exact h
          · rw [if_neg hdup]
            obtain ⟨hreqmem, _⟩ := findReq_eq_some hfr
            apply storeInv_replaceReq h
            · exact reqWF_of_map_id_eq (updateTaskById_map_id (fun t => rfl))
                (h.1 req hreqmem)
            · intro t' ht'
              rcases mem_updateTaskById ht' with ⟨t, ht, _, rfl⟩ | ⟨ht, _⟩
              · exact h.2.1 req hreqmem t ht
              · exact h.2.1 req hreqmem t' ht
            · intro hcomp t' ht'
              rcases mem_updateTaskById ht' with ⟨t, ht, _, rfl⟩ | ⟨ht, _⟩
              · exact h.2.2 req hreqmem hcomp t ht
              · exact h.2.2 req hreqmem hcomp t' ht

theorem storeInv_removeDependency {s : Store} (h : StoreInv s) (rid tid did : String) :
    StoreInv (removeDependency s rid tid did).1 := by
  simp only [removeDependency]
  cases hfr : findReq s rid with
  | none => exact h
  | some req =>
    dsimp only
    cases hft : findTask req.tasks tid with
    | none => exact h
    | some task =>
      dsimp only
      by_cases hdup : (!(task.dependsOn.getD []).contains did) = true
      · rw [if_pos hdup]
        exact h
      · rw [if_neg hdup]
        obtain ⟨hreqmem, _⟩ := findReq_eq_some hfr
        apply storeInv_replaceReq h
        · exact reqWF_of_map_id_eq (updateTaskById_map_id (fun t => rfl))
            (h.1 req hreqmem)
        · intro t' ht'
          rcases mem_updateTaskById ht' with ⟨t, ht, _, rfl⟩ | ⟨ht, _⟩
          · exact h.2.1 req hreqmem t ht
          · exact h.2.1 req hreqmem t' ht
        · intro hcomp t' ht'
          rcases mem_updateTaskById ht' with ⟨t, ht, _, rfl⟩ | ⟨ht, _⟩
          · exact h.2.2 req hreqmem hcomp t ht
          · exact h.2.2 req hreqmem hcomp t' ht

theorem storeInv_updateTaskOp {s : Store} (h : StoreInv s) (rid tid : String)
    (title description : Option String) (p : Option Priority) :
    StoreInv (updateTaskOp s rid tid title description p).1 := by
  simp only [updateTaskOp]
  cases hfr : findReq s rid with
  | none => exact h
  | some req =>
    dsimp only
    cases hft : findTask req.tasks tid with
    | none => exact h
    | some task =>
      dsimp only
      by_cases hterm : (task.status == Status.done || task.status == Status.failed) = true
      · rw [if_pos hterm]
        exact h
      · rw [if_neg hterm]
        obtain ⟨hreqmem, _⟩ := findReq_eq_some hfr
        apply storeInv_replaceReq h
        · exact reqWF_of_map_id_eq
            (updateTaskById_map_id (fun t => (editTask_fields title description p t).1))
            (h.1 req hreqmem)
        · intro t' ht'
          rcases mem_updateTaskById ht' with ⟨t, ht, _, rfl⟩ | ⟨ht, _⟩
          · obtain ⟨_, hst, hfr', hcd⟩ := editTask_fields title description p t
            exact taskFieldsInv_of_fields_eq (h.2.1 req hreqmem t ht) hst hfr' hcd
          · exact h.2.1 req hreqmem t' ht
        · intro hcomp t' ht'
          rcases mem_updateTaskById ht' with ⟨t, ht, _, rfl⟩ | ⟨ht, _⟩
          · rw [(editTask_fields title description p t).2.1]
            exact h.2.2 req hreqmem hcomp t ht
          · exact h.2.2 req hreqmem hcomp t' ht

theorem storeInv_markCore {s : Store} {rid : String} {req : RequestEntry}
    (h : StoreInv s) (hfr : findReq s rid = some req) {tasks2 : List Task}
    (hids : tasks2.map Task.id = req.tasks.map Task.id)
    (hf2 : ∀ t ∈ tasks2, TaskFieldsInv t) (hcompF : req.completed = false) :
    StoreInv (replaceReq s rid (completeIfAllTerminal req tasks2)) := by
  obtain ⟨hreqmem, _⟩ := findReq_eq_some hfr
  apply storeInv_replaceReq h
  · exact reqWF_of_map_id_eq hids (h.1 req hreqmem)
  · exact hf2
  · intro hcomp t ht
    simp only [completeIfAllTerminal] at hcomp
    rw [hcompF] at hcomp
    simp at hcomp
    exact hcomp t ht

theorem storeInv_markTaskDone {s : Store} (h : StoreInv s) (rid tid : String)
    (d : Option String) : StoreInv (markTaskDone s rid tid d).1 := by
  simp only [markTaskDone]
  cases hfr : findReq s rid with
  | none => exact h
  | some req =>
    dsimp only
    cases hft : findTask req.tasks tid with
    | none => exact h
    | some task =>
      dsimp only
      by_cases hd : (task.status == Status.done) = true
      · rw [if_pos hd]
        exact h
      · rw [if_neg hd]
        by_cases hf : (task.status == Status.failed) = true
        · rw [if_pos hf]
          exact h
        · rw [if_neg hf]
          obtain ⟨hreqmem, _⟩ := findReq_eq_some hfr
          obtain ⟨htaskmem, _⟩ := findTask_eq_some hft
          have hterm : statusIsTerminal task.status = false :=
            statusIsTerminal_false (by simpa using hd) (by simpa using hf)
          have hcompF : req.completed = false := by
            cases hcb : req.completed
            · rfl
            · exact absurd (h.2.2 req hreqmem hcb task htaskmem) (by simp [hterm])
          apply storeInv_markCore h hfr
          · rw [propagateToParent_map_id]
            exact updateTaskById_map_id (fun t => rfl)
          · apply fieldsInv_propagateToParent
            · exact nodup_map_id_updateTaskById (fun t => rfl) (h.1 req hreqmem).2
            · intro t' ht'
              rcases mem_updateTaskById ht' with ⟨t, ht, _, rfl⟩ | ⟨ht, _⟩
              · exact taskFieldsInv_markDone d t
              · exact h.2.1 req hreqmem t' ht
          · exact hcompF

theorem storeInv_markTaskFailed {s : Store} (h : StoreInv s) (rid tid : String)
    (r : Option String) : StoreInv (markTaskFailed s rid tid r).1 := by
  simp only [markTaskFailed]
  cases hfr : findReq s rid with
  | none => exact h
  | some req =>
    dsimp only
    cases hft : findTask req.tasks tid with
    | none => exact h
    | some task =>
      dsimp only
      by_cases hf : (task.status == Status.failed) = true
      · rw [if_pos hf]
        exact h
      · rw [if_neg hf]
        by_cases hd : (task.status == Status.done) = true
        · rw [if_pos hd]
          exact h
        · rw [if_neg hd]
          obtain ⟨hreqmem, _⟩ := findReq_eq_some hfr
          obtain ⟨htaskmem, _⟩ := findTask_eq_some hft
          have hterm : statusIsTerminal task.status = false :=
            statusIsTerminal_false (by simpa using hd) (by simpa using hf)
          have hcompF : req.completed = false := by
            cases hcb : req.completed
            · rfl
            · exact absurd (h.2.2 req hreqmem hcb task htaskmem) (by simp [hterm])
          apply storeInv_markCore h hfr
          · rw [propagateToParent_map_id]
            exact updateTaskById_map_id (fun t => rfl)
          · apply fieldsInv_propagateToParent
            · exact nodup_map_id_updateTaskById (fun t => rfl) (h.1 req hreqmem).2
            · intro t' ht'
              rcases mem_updateTaskById ht' with ⟨t, ht, _, rfl⟩ | ⟨ht, _⟩
              · exact taskFieldsInv_markFailed r t
              · exact h.2.1 req hreqmem t' ht
          · exact hcompF

theorem storeInv_addTasksToRequest {s : Store} (h : StoreInv s) (rid : String)
    (specs : List TaskSpec) : StoreInv (addTasksToRequest s rid specs).1 := by
  simp only [addTasksToRequest]
  cases hfr : findReq s rid with
  | none => exact h
  | some req =>
    dsimp only
    by_cases hcomp : req.completed = true
    · rw [if_pos hcomp]
      exact h
    · rw [if_neg hcomp]
      dsimp only
      obtain ⟨hreqmem, _⟩ := findReq_eq_some hfr
      obtain ⟨hW, hF, hC⟩ := h
      refine ⟨?_, ?_, ?_⟩
      · intro r hr
        rcases mem_replaceReq hr with rfl | hr'
        · refine ⟨?_, ?_⟩
          · intro t ht
            rcases List.mem_append.mp ht with ht | ht
            · obtain ⟨k, h1, h2, h3⟩ := (hW req hreqmem).1 t ht
              exact ⟨k, h1, le_trans h2 (Nat.le_add_right _ _), h3⟩
            · obtain ⟨k, h1, h2, h3⟩ := mintTasks_bound s.lastTaskId specs t ht
              exact ⟨k, by omega, h2, h3⟩
          · rw [List.map_append, List.nodup_append]
            refine ⟨(hW req hreqmem).2, mintTasks_nodup _ _, ?_⟩
            intro x hx hx2
            obtain ⟨t, ht, rfl⟩ := List.mem_map.mp hx
            obtain ⟨t2, ht2, heq2⟩ := List.mem_map.mp hx2
            obtain ⟨k, hk1, hk2, hk3⟩ := (hW req hreqmem).1 t ht
            obtain ⟨m, hm1, hm2, hm3⟩ := mintTasks_bound s.lastTaskId specs t2 ht2
            have hkm : k = m := taskIdStr_inj (by rw [← hk3, ← heq2, hm3])
            omega
        · exact reqWF_mono (Nat.le_add_right _ _) (hW r hr')
      · intro r hr
        rcases mem_replaceReq hr with rfl | hr'
        · intro t ht
          rcases List.mem_append.mp ht with ht | ht
          · exact hF req hreqmem t ht
          · exact mintTasks_fields _ _ t ht
        · exact hF r hr'
      · intro r hr
        rcases mem_replaceReq hr with rfl | hr'
        · intro hc
          exact absurd hc hcomp
        · exact hC r hr'

theorem storeInv_addSubtask {s : Store} (h : StoreInv s)
    (rid pid st sd : String) (p : Option Priority) (deps : Option (List String)) :
    StoreInv (addSubtask s rid pid st sd p deps).1 := by
  simp only [addSubtask]
  cases hfr : findReq s rid with
  | none => exact h
  | some req =>
    dsimp only
    by_cases hcomp : req.completed = true
    · rw [if_pos hcomp]
      exact h
    · rw [if_neg hcomp]
      cases hft : findTask req.tasks pid with
      | none => exact h
      | some parentTask =>
        dsimp only
        by_cases hterm : (parentTask.status == Status.done
            || parentTask.status == Status.failed) = true
        · rw [if_pos hterm]
          exact h
        · rw [if_neg hterm]
          dsimp only
          obtain ⟨hreqmem, _⟩ := findReq_eq_some hfr
          obtain ⟨hW, hF, hC⟩ := h
          have hbound : ∀ t0 ∈ req.tasks ++ [newSubtaskRecord s.lastTaskId pid st sd p deps
              parentTask],
              ∃ k, 1 ≤ k ∧ k ≤ s.lastTaskId + 1 ∧ t0.id = taskIdStr k := by
            intro t0 ht0
            rcases List.mem_append.mp ht0 with ht0 | ht0
            · obtain ⟨k, h1, h2, h3⟩ := (hW req hreqmem).1 t0 ht0
              exact ⟨k, h1, by omega, h3⟩
            · rw [List.mem_singleton] at ht0
              exact ⟨s.lastTaskId + 1, by omega, Nat.le_refl _, by rw [ht0]; rfl⟩
          refine ⟨?_, ?_, ?_⟩
          · intro r hr
            rcases mem_replaceReq hr with rfl | hr'
            · refine ⟨?_, ?_⟩
              · intro t ht
                rcases mem_updateTaskById ht with ⟨t0, ht0, _, rfl⟩ | ⟨ht0, _⟩
                · exact hbound t0 ht0
                · exact hbound t ht0
              · dsimp only
                have happ : ((req.tasks ++ [newSubtaskRecord s.lastTaskId pid st sd p deps
                    parentTask]).map Task.id).Nodup := by
                  rw [List.map_append, List.nodup_append]
                  refine ⟨(hW req hreqmem).2, by simp, ?_⟩
                  intro x hx hx2
                  obtain ⟨t, ht, rfl⟩ := List.mem_map.mp hx
                  obtain ⟨k, hk1, hk2, hk3⟩ := (hW req hreqmem).1 t ht
                  simp only [List.map_singleton, List.mem_singleton] at hx2
                  have hkm : k = s.lastTaskId + 1 :=
                    taskIdStr_inj (by rw [← hk3, hx2]; rfl)
                  omega
                exact nodup_map_id_updateTaskById (fun t => rfl) happ
            · exact reqWF_mono (Nat.le_succ _) (hW r hr')
          · intro r hr
            rcases mem_replaceReq hr with rfl | hr'
            · intro t ht
              have hFapp : ∀ t0 ∈ req.tasks ++ [newSubtaskRecord s.lastTaskId pid st sd p
                  deps parentTask], TaskFieldsInv t0 := by
                intro t0 ht0
                rcases List.mem_append.mp ht0 with ht0 | ht0
                · exact hF req hreqmem t0 ht0
                · rw [List.mem_singleton] at ht0
                  rw [ht0]
                  exact ⟨fun _ => rfl, fun _ => rfl⟩
              rcases mem_updateTaskById ht with ⟨t0, ht0, _, rfl⟩ | ⟨ht0, _⟩
              · exact taskFieldsInv_of_fields_eq (hFapp t0 ht0) rfl rfl rfl
              · exact hFapp t ht0
            · exact hF r hr'
          · intro r hr
            rcases mem_replaceReq hr with rfl | hr'
            · intro hc
              exact absurd hc hcomp
            · exact hC r hr'

theorem storeInv_removal {s : Store} {rid : String} {req : RequestEntry}
    (h : StoreInv s) (hfr : findReq s rid = some req) (rootId : String) :
    StoreInv (replaceReq s rid { req with tasks := removedCleaned req rootId }) := by
  obtain ⟨hreqmem, _⟩ := findReq_eq_some hfr
  apply storeInv_replaceReq h
  · refine reqWF_of_sublist ?_ ?_ (h.1 req hreqmem)
    · exact removedCleaned_map_id_sublist req rootId
    · intro t ht
      obtain ⟨t0, ht0, hid, _⟩ := mem_removedCleaned_status ht
      exact ⟨t0, ht0, hid⟩
  · intro t' ht'
    obtain ⟨t0, ht0, hst, hfr', hcd⟩ := mem_removedCleaned_fields ht'
    exact taskFieldsInv_of_fields_eq (h.2.1 req hreqmem t0 ht0) hst hfr' hcd
  · intro hcomp t' ht'
    obtain ⟨t0, ht0, _, hst⟩ := mem_removedCleaned_status ht'
    rw [← hst]
    exact h.2.2 req hreqmem hcomp t0 ht0

theorem storeInv_deleteTask {s : Store} (h : StoreInv s) (rid tid : String) :
    StoreInv (deleteTask s rid tid).1 := by
  cases hfr : findReq s rid with
  | none =>
    have hdel : deleteTask s rid tid = (s, RemoveResult.reqNotFound) := by
      simp only [deleteTask, hfr]
    rw [hdel]
    exact h
  | some req =>
    cases hft : findTask req.tasks tid with
    | none =>
      have hdel : deleteTask s rid tid = (s, RemoveResult.taskNotFound) := by
        simp only [deleteTask, hfr, hft]
      rw [hdel]
      exact h
    | some task =>
      obtain ⟨htaskmem, htaskid⟩ := findTask_eq_some hft
      have hmgsome : (mapGet req.tasks tid).isSome = true := by
        simp only [mapGet, List.find?_isSome]
        exact ⟨task, List.mem_reverse.mpr htaskmem, by simp [htaskid]⟩
      obtain ⟨rootTask, hmg⟩ := Option.isSome_iff_exists.mp hmgsome
      have hdel : deleteTask s rid tid =
          (replaceReq s rid { req with tasks := removedCleaned req tid },
           RemoveResult.removed) := by
        simp only [deleteTask, hfr, hft, removeTaskAndDescendants_some hmg]
        rw [if_pos trivial]
      rw [hdel]
      exact storeInv_removal h hfr tid

theorem storeInv_removeSubtask {s : Store} (h : StoreInv s) (rid sid : String)
    (ptid : Option String) : StoreInv (removeSubtask s rid sid ptid).1 := by
  simp only [removeSubtask]
  cases hfr : findReq s rid with
  | none => exact h
  | some req =>
    dsimp only
    by_cases hany : (!req.tasks.any fun t => t.id == sid) = true
    · rw [if_pos hany]
      exact h
    · rw [if_neg hany]
      have hex : ∃ t ∈ req.tasks, (t.id == sid) = true := by
        have hany' : (req.tasks.any fun t => t.id == sid) = true := by
          rcases Bool.eq_false_or_eq_true (req.tasks.any fun t => t.id == sid) with hb | hb
          · exact hb
          · exact absurd (by rw [hb]; rfl) hany
        simpa using List.any_eq_true.mp hany'
      obtain ⟨task, htaskmem, htaskid⟩ := hex
      have hmgsome : (mapGet req.tasks sid).isSome = true := by
        simp only [mapGet, List.find?_isSome]
        exact ⟨task, List.mem_reverse.mpr htaskmem, htaskid⟩
      obtain ⟨rootTask, hmg⟩ := Option.isSome_iff_exists.mp hmgsome
      by_cases hpc : ((match ptid with
          | none => RemoveResult.removed
          | some ptidv =>
            match findTask req.tasks ptidv with
            | none => RemoveResult.parentNotFound
            | some parentTask =>
              if !(parentTask.subtaskIds.getD []).contains sid then
                RemoveResult.notDirectSubtask
              else RemoveResult.removed) != RemoveResult.removed) = true
      · rw [if_pos hpc]
        exact h
      · rw [if_neg hpc]
        rw [removeTaskAndDescendants_some hmg]
        dsimp only
        rw [if_pos rfl]
        exact storeInv_removal h hfr sid

theorem storeInv_applyOp {s : Store} (h : StoreInv s) (op : Op) :
    StoreInv (applyOp s op) := by
  cases op with
  | requestPlanning o specs sd => exact storeInv_requestPlanning h o specs sd
  | getNextTask rid => exact storeInv_getNextTask h rid
  | markTaskDone rid tid d => exact storeInv_markTaskDone h rid tid d
  | markTaskFailed rid tid r => exact storeInv_markTaskFailed h rid tid r
  | openTaskDetails _ => exact h
  | listRequests => exact h
  | addTasksToRequest rid specs => exact storeInv_addTasksToRequest h rid specs
  | updateTask rid tid t d p => exact storeInv_updateTaskOp h rid tid t d p
  | addDependency rid tid did => exact storeInv_addDependency h rid tid did
  | removeDependency rid tid did => exact storeInv_removeDependency h rid tid did
  | validateDependencies _ => exact h
  | deleteTask rid tid => exact storeInv_deleteTask h rid tid
  | addSubtask rid pid t d p deps => exact storeInv_addSubtask h rid pid t d p deps
  | removeSubtask rid sid pid => exact storeInv_removeSubtask h rid sid pid

theorem storeInv_initialStore : StoreInv initialStore := by
  refine ⟨?_, ?_, ?_⟩ <;> intro r hr <;> simp [initialStore] at hr

theorem storeInv_applyOps (ops : List Op) : StoreInv (applyOps initialStore ops) := by
  suffices h : ∀ s, StoreInv s → StoreInv (applyOps s ops) from h _ storeInv_initialStore
  induction ops with
  | nil => exact fun s hs => hs
  | cons op rest ih =>
    intro s hs
    simp only [applyOps, List.foldl_cons]
    exact ih _ (storeInv_applyOp hs op)

/-! ## Claims C5, C6 and C9 -/

/-- C5 (corrected): in every state reachable by the operations from a fresh
store, a request whose `completed` flag is `true` holds only terminal
(`done` or `failed`) tasks.  This is the provable direction of the claimed
biconditional; the converse is false, see the counterexample. -/
theorem c5_completed_implies_all_terminal (ops : List Op) (r : RequestEntry) (t : Task)
    (hr : r ∈ (applyOps initialStore ops).requests) (hc : r.completed = true)
    (ht : t ∈ r.tasks) : statusIsTerminal t.status = true :=
  (storeInv_applyOps ops).2.2 r hr hc t ht

/-- C5 witness: the request completed by `c9ops` indeed holds only terminal
tasks; its failed task is terminal. -/
theorem c5_witness : statusIsTerminal c9failedTask.status = true :=
  c5_completed_implies_all_terminal c9ops c9req c9failedTask (by decide) rfl (by decide)

/-- C5 counterexample: one `request_planning` call with an empty task list
reaches a state with a request whose `completed` flag is `false` although
every (zero) of its tasks is terminal, refuting the biconditional. -/
theorem c5_counterexample :
    ∃ r ∈ (applyOps initialStore [.requestPlanning "r" [] none]).requests,
      ¬(r.completed = true ↔ ∀ t ∈ r.tasks, statusIsTerminal t.status = true) := by
  decide

/-- C6 (corrected): `add_dependency` preserves the no-self-dependency
invariant — it rejects `taskId = dependsOnTaskId`, and the edge it appends
goes to a different id.  The claim's stronger statement (the invariant holds
after *every* operation, including creations with caller-supplied
`dependsOn` arrays) is refuted by the counterexample. -/
theorem c6_addDependency_preserves_no_self_dep (s : Store) (h : NoSelfDep s)
    (rid tid did : String) : NoSelfDep (addDependency s rid tid did).1 := by
  simp only [addDependency]
  cases hfr : findReq s rid with
  | none => exact h
  | some req =>
    dsimp only
    cases hft : findTask req.tasks tid with
    | none => exact h
    | some task =>
      dsimp only
      cases hfd : findTask req.tasks did with
      | none => exact h
      | some dep =>
        dsimp only
        by_cases heq : (tid == did) = true
        · rw [if_pos heq]
          exact h
        · rw [if_neg heq]
          by_cases hdup : ((task.dependsOn.getD []).contains did) = true
          · rw [if_pos hdup]
            exact h
          · rw [if_neg hdup]
            obtain ⟨hreqmem, _⟩ := findReq_eq_some hfr
            intro r hr
            rcases mem_replaceReq hr with rfl | hr'
            · intro t' ht'
              rcases mem_updateTaskById ht' with ⟨t, ht, hid, rfl⟩ | ⟨ht, _⟩
              · intro hmem
                have hmem' : t.id ∈ (t.dependsOn.getD []) ++ [did] := hmem
                rcases List.mem_append.mp hmem' with hin | hin
                · exact h req hreqmem t ht hin
                · rw [List.mem_singleton] at hin
                  rw [hid] at hin
                  exact heq (by simp [hin])
              · exact h req hreqmem t' ht
            · exact h r hr'

/-- C6 witness: adding the `task-1 → task-2` edge on the self-dependency-free
store `c6Store` leaves `task-1` free of a dependency on itself. -/
theorem c6_witness : c6Task.id ∉ c6Task.dependsOn.getD [] :=
  c6_addDependency_preserves_no_self_dep c6Store
    (by simp only [NoSelfDep]; decide) "req-1" "task-1" "task-2"
    c6Req (by decide) c6Task (by decide)

/-- C6 counterexample: `request_planning` copies a caller-supplied `dependsOn`
array verbatim, so a spec naming the id the new task is about to receive
reaches a state with a task depending on itself. -/
theorem c6_counterexample :
    ∃ r ∈ (applyOps initialStore [.requestPlanning "r"
        [{ title := "A", description := "", priority := none,
           dependsOn := some ["task-1"] }] none]).requests,
      ∃ t ∈ r.tasks, t.id ∈ t.dependsOn.getD [] := by
  decide

/-- C9: in every state reachable by the operations from a fresh store, a
`done` task carries no `failureReason` and a `failed` task carries empty
`completedDetails` — auto-completed parents included. -/
theorem c9_terminal_fields_exclusive (ops : List Op) (r : RequestEntry) (t : Task)
    (hr : r ∈ (applyOps initialStore ops).requests) (ht : t ∈ r.tasks) :
    (t.status = .done → t.failureReason = none) ∧
    (t.status = .failed → t.completedDetails = "") := by
  have h := (storeInv_applyOps ops).2.1 r hr t ht
  constructor
  · intro hd
    exact h.1 (by rw [hd]; exact fun hx => Status.noConfusion hx)
  · intro hf
    exact h.2 (by rw [hf]; exact fun hx => Status.noConfusion hx)

/-- C9 witness: in the state reached by `c9ops`, the `done` task has no
failure reason and the `failed` task has empty completion details. -/
theorem c9_witness :
    c9doneTask.failureReason = none ∧ c9failedTask.completedDetails = "" :=
  ⟨(c9_terminal_fields_exclusive c9ops c9req c9doneTask (by decide) (by decide)).1 rfl,
   (c9_terminal_fields_exclusive c9ops c9req c9failedTask (by decide) (by decide)).2 rfl⟩

end TaskMgr
